import Mathlib

/-!
# A shallow embedding of the LC-3 virtual machine of `src/vm.h`

The C++ class `VM::vm` owns a memory of `MEMORY_MAX` 16-bit words, a register
file of `R_COUNT` 16-bit words and a run flag.  The embedding keeps these three
fields and adds the console as explicit state: the bytes `getchar()` will
deliver, the outcomes of the successive `select()` polls of `check_key`, and the
bytes written to `stdout`.

Every `uint16_t` is a `Nat`; every store into a `uint16_t` location reduces the
stored value modulo `2^16`, as the conversion on assignment does in C++.
-/

namespace VM

/-! ## Constants of `vm.h` -/

abbrev MEMORY_MAX : Nat := 1 <<< 16
abbrev PC_START : Nat := 0x3000
abbrev UINT16_MAX : Nat := 65535

abbrev R_R0 : Nat := 0
abbrev R_R1 : Nat := 1
abbrev R_R2 : Nat := 2
abbrev R_R3 : Nat := 3
abbrev R_R4 : Nat := 4
abbrev R_R5 : Nat := 5
abbrev R_R6 : Nat := 6
abbrev R_R7 : Nat := 7
abbrev R_PC : Nat := 8
abbrev R_COND : Nat := 9
abbrev R_COUNT : Nat := 10

abbrev OP_BR : Nat := 0
abbrev OP_ADD : Nat := 1
abbrev OP_LD : Nat := 2
abbrev OP_ST : Nat := 3
abbrev OP_JSR : Nat := 4
abbrev OP_AND : Nat := 5
abbrev OP_LDR : Nat := 6
abbrev OP_STR : Nat := 7
abbrev OP_RTI : Nat := 8
abbrev OP_NOT : Nat := 9
abbrev OP_LDI : Nat := 10
abbrev OP_STI : Nat := 11
abbrev OP_JMP : Nat := 12
abbrev OP_RES : Nat := 13
abbrev OP_LEA : Nat := 14
abbrev OP_TRAP : Nat := 15

abbrev FL_POS : Nat := 1 <<< 0
abbrev FL_ZRO : Nat := 1 <<< 1
abbrev FL_NEG : Nat := 1 <<< 2

abbrev TRAP_GETC : Nat := 0x20
abbrev TRAP_OUT : Nat := 0x21
abbrev TRAP_PUTS : Nat := 0x22
abbrev TRAP_IN : Nat := 0x23
abbrev TRAP_PUTSP : Nat := 0x24
abbrev TRAP_HALT : Nat := 0x25

abbrev MR_KBSR : Nat := 0xFE00
abbrev MR_KBDR : Nat := 0xFE02

/-! ## Machine state -/

/-- The fields of `class vm` together with the console. -/
structure State where
  /-- The array `uint16_t memory[MEMORY_MAX]`. -/
  memory : Nat → Nat
  /-- The array `uint16_t regs[R_COUNT]`. -/
  regs : Nat → Nat
  /-- The flag `bool run`. -/
  run : Bool
  /-- The bytes still to be delivered by `getchar()`; end of file afterwards. -/
  input : List Nat
  /-- The outcomes of the coming `select()` polls; no key once exhausted. -/
  keys : List Bool
  /-- The bytes written to `stdout` so far. -/
  output : List Nat

/-- The ways a step can leave the modelled machine: `abort()` on a reserved
opcode, or a pointer walking past the end of `memory`. -/
inductive Fault where
  | abort
  | out_of_bounds
  deriving DecidableEq

/-- Conversion of an `int` to `uint16_t`. -/
def to_uint16 (i : Int) : Nat := (i % 65536).toNat

/-- Conversion of an `int` to `char` (signed, eight bits, as on the unix hosts
the file is written for). -/
def to_char (i : Int) : Int := (i + 128) % 256 - 128

/-- The byte `putc` writes for an `int` argument (conversion to `unsigned char`). -/
def to_byte (i : Int) : Nat := (i % 256).toNat

/-- The assignment `regs[r] = v`. -/
def setReg (r v : Nat) (s : State) : State :=
  { s with regs := fun i => if i = r then v % 65536 else s.regs i }

/-- The assignment `memory[a] = v`. -/
def setMem (a v : Nat) (s : State) : State :=
  { s with memory := fun i => if i = a then v % 65536 else s.memory i }

/-- One call of `putc(c, stdout)`. -/
def putc (c : Nat) (s : State) : State :=
  { s with output := s.output ++ [c % 256] }

/-- One call of `getchar()`: the next byte of the input, or `EOF = -1`. -/
def getchar (s : State) : Int × State :=
  match s.input with
  | [] => (-1, s)
  | c :: rest => (((c % 256 : Nat) : Int), { s with input := rest })

/-- The function `check_key`: the outcome of a zero-timeout `select()` on stdin. -/
def check_key (s : State) : Bool × State :=
  match s.keys with
  | [] => (false, s)
  | k :: rest => (k, { s with keys := rest })

/-! ## Helpers of `class vm` -/

/-- The function `sign_extend(x, bit_count)`. -/
def sign_extend (x bit_count : Nat) : Nat :=
  if (x >>> (bit_count - 1)) &&& 1 ≠ 0 then
    (x ||| (0xFFFF <<< bit_count)) % 65536
  else x

/-- The function `update_flags(r)`. -/
def update_flags (r : Nat) (s : State) : State :=
  if s.regs r = 0 then setReg R_COND FL_ZRO s
  else if s.regs r >>> 15 ≠ 0 then setReg R_COND FL_NEG s
  else setReg R_COND FL_POS s

/-- The function `mem_write(address, val)`; both parameters are `uint16_t`. -/
def mem_write (address val : Nat) (s : State) : State :=
  setMem (address % 65536) val s

/-- The function `mem_read(address)`: the word read and the state after the
keyboard poll a read of `MR_KBSR` performs. -/
def mem_read (address : Nat) (s : State) : Nat × State :=
  let a := address % 65536
  if a = MR_KBSR then
    let k := check_key s
    if k.1 = true then
      let s1 := setMem MR_KBSR (1 <<< 15) k.2
      let g := getchar s1
      let s2 := setMem MR_KBDR (to_uint16 g.1) g.2
      (s2.memory a, s2)
    else
      let s1 := setMem MR_KBSR 0 k.2
      (s1.memory a, s1)
  else (s.memory a, s)

/-- The function `swap16(x)`. -/
def swap16 (x : Nat) : Nat := ((x <<< 8) ||| (x >>> 8)) % 65536

/-! ## The instruction handlers -/

/-- The handler `BR`. -/
def BR (instr : Nat) (s : State) : State :=
  let offset := sign_extend (instr &&& 0x1ff) 9
  let cond := (instr >>> 9) &&& 0x7
  if cond &&& s.regs R_COND ≠ 0 then setReg R_PC (s.regs R_PC + offset) s
  else s

/-- The handler `ADD`. -/
def ADD (instr : Nat) (s : State) : State :=
  let dr := (instr >>> 9) &&& 0x7
  let sr1 := (instr >>> 6) &&& 0x7
  let imm_flag := (instr >>> 5) &&& 0x1
  if imm_flag ≠ 0 then
    let imm5 := sign_extend (instr &&& 0x1f) 5
    update_flags dr (setReg dr (s.regs sr1 + imm5) s)
  else
    let sr2 := instr &&& 0x7
    update_flags dr (setReg dr (s.regs sr1 + s.regs sr2) s)

/-- The handler `LD`. -/
def LD (instr : Nat) (s : State) : State :=
  let r0 := (instr >>> 9) &&& 0x7
  let pc_offset := sign_extend (instr &&& 0x1ff) 9
  let m := mem_read (s.regs R_PC + pc_offset) s
  update_flags r0 (setReg r0 m.1 m.2)

/-- The handler `ST`. -/
def ST (instr : Nat) (s : State) : State :=
  let r0 := (instr >>> 9) &&& 0x7
  let pc_offset := sign_extend (instr &&& 0x1FF) 9
  mem_write (s.regs R_PC + pc_offset) (s.regs r0) s

/-- The handler `JSR`. -/
def JSR (instr : Nat) (s : State) : State :=
  let r1 := (instr >>> 6) &&& 0x7
  let long_pc_offset := sign_extend (instr &&& 0x7ff) 11
  let long_flag := (instr >>> 11) &&& 1
  let s1 := setReg R_R7 (s.regs R_PC) s
  if long_flag ≠ 0 then setReg R_PC (s1.regs R_PC + long_pc_offset) s1
  else setReg R_PC (s1.regs r1) s1

/-- The handler `AND`. -/
def AND (instr : Nat) (s : State) : State :=
  let dr := (instr >>> 9) &&& 0x7
  let sr1 := (instr >>> 6) &&& 0x7
  let imm_flag := (instr >>> 5) &&& 0x1
  if imm_flag ≠ 0 then
    let imm5 := sign_extend (instr &&& 0x1f) 5
    update_flags dr (setReg dr (s.regs sr1 &&& imm5) s)
  else
    let sr2 := instr &&& 0x7
    update_flags dr (setReg dr (s.regs sr1 &&& s.regs sr2) s)

/-- The handler `LDR`. -/
def LDR (instr : Nat) (s : State) : State :=
  let r0 := (instr >>> 9) &&& 0x7
  let r1 := (instr >>> 6) &&& 0x7
  let offset := sign_extend (instr &&& 0x3F) 6
  let m := mem_read (s.regs r1 + offset) s
  update_flags r0 (setReg r0 m.1 m.2)

/-- The handler `STR`. -/
def STR (instr : Nat) (s : State) : State :=
  let r0 := (instr >>> 9) &&& 0x7
  let r1 := (instr >>> 6) &&& 0x7
  let offset := sign_extend (instr &&& 0x3F) 6
  mem_write (s.regs r1 + offset) (s.regs r0) s

/-- The handler `NOT`; the complement of a promoted `uint16_t`, stored back
into sixteen bits, is `0xFFFF - x`. -/
def NOT (instr : Nat) (s : State) : State :=
  let dr := (instr >>> 9) &&& 0x7
  let sr := (instr >>> 6) &&& 0x7
  update_flags dr (setReg dr (0xFFFF - s.regs sr % 65536) s)

/-- The handler `LDI`. -/
def LDI (instr : Nat) (s : State) : State :=
  let dr := (instr >>> 9) &&& 0x7
  let pcoffset := sign_extend (instr &&& 0x1ff) 9
  let m1 := mem_read (s.regs R_PC + pcoffset) s
  let m2 := mem_read m1.1 m1.2
  update_flags dr (setReg dr m2.1 m2.2)

/-- The handler `STI`. -/
def STI (instr : Nat) (s : State) : State :=
  let r0 := (instr >>> 9) &&& 0x7
  let pc_offset := sign_extend (instr &&& 0x1FF) 9
  let m := mem_read (s.regs R_PC + pc_offset) s
  mem_write m.1 (m.2.regs r0) m.2

/-- The handler `JMP`. -/
def JMP (instr : Nat) (s : State) : State :=
  let br := (instr >>> 6) &&& 0x7
  setReg R_PC (s.regs br) s

/-- The handler `LEA`. -/
def LEA (instr : Nat) (s : State) : State :=
  let r0 := (instr >>> 9) &&& 0x7
  let pc_offset := sign_extend (instr &&& 0x1FF) 9
  update_flags r0 (setReg r0 (s.regs R_PC + pc_offset) s)

/-! ## The trap handlers -/

/-- The loop of `TRAP_PUTS`: `c` walks up from `memory + regs[R_R0]` while `*c`
is not zero.  The first argument is the number of words left between `c` and
the end of `memory`; with none left the read `*c` is outside the array. -/
def puts_loop (s : State) : Nat → Nat → List Nat → Except Fault (List Nat)
  | 0, _, _ => .error Fault.out_of_bounds
  | left + 1, c, out =>
    if s.memory c = 0 then .ok out
    else puts_loop s left (c + 1) (out ++ [s.memory c % 256])

/-- The loop of `TRAP_PUTSP`: as `puts_loop`, writing the low byte of each word
and then its high byte when that is not zero. -/
def putsp_loop (s : State) : Nat → Nat → List Nat → Except Fault (List Nat)
  | 0, _, _ => .error Fault.out_of_bounds
  | left + 1, c, out =>
    if s.memory c = 0 then .ok out
    else
      let char1 := (s.memory c &&& 0xFF) % 256
      let char2 := (s.memory c >>> 8) % 256
      if char2 ≠ 0 then putsp_loop s left (c + 1) (out ++ [char1, char2])
      else putsp_loop s left (c + 1) (out ++ [char1])

/-- The bytes of the prompt of `TRAP_IN`, "Enter a character: ". -/
def in_prompt : List Nat :=
  [69, 110, 116, 101, 114, 32, 97, 32, 99, 104, 97, 114, 97, 99, 116, 101, 114, 58, 32]

/-- The bytes `puts("HALT")` writes: the text and a newline. -/
def halt_text : List Nat := [72, 65, 76, 84, 10]

/-- The handler `TRAP`; a vector outside the six cases falls through the switch. -/
def TRAP (instr : Nat) (s : State) : Except Fault State :=
  let v := instr &&& 0xFF
  if v = TRAP_GETC then
    let g := getchar s
    .ok (setReg R_R0 (to_uint16 g.1) g.2)
  else if v = TRAP_OUT then
    .ok (putc (s.regs R_R0) s)
  else if v = TRAP_PUTS then
    match puts_loop s (MEMORY_MAX - s.regs R_R0) (s.regs R_R0) [] with
    | .ok out => .ok { s with output := s.output ++ out }
    | .error e => .error e
  else if v = TRAP_IN then
    let s1 := { s with output := s.output ++ in_prompt }
    let g := getchar s1
    let c := to_char g.1
    let s2 := putc (to_byte c) g.2
    .ok (update_flags R_R0 (setReg R_R0 (to_uint16 c) s2))
  else if v = TRAP_PUTSP then
    match putsp_loop s (MEMORY_MAX - s.regs R_R0) (s.regs R_R0) [] with
    | .ok out => .ok { s with output := s.output ++ out }
    | .error e => .error e
  else if v = TRAP_HALT then
    .ok { s with output := s.output ++ halt_text, run := false }
  else .ok s

/-! ## The execution loop -/

/-- The fetch `memory[regs[R_PC]++]`: the instruction word and the state with
the program counter incremented. -/
def fetch (s : State) : Nat × State :=
  (s.memory (s.regs R_PC), setReg R_PC (s.regs R_PC + 1) s)

/-- The `switch (op)` of `execute`. -/
def dispatch (instr : Nat) (s : State) : Except Fault State :=
  let op := instr >>> 12
  if op = OP_BR then .ok (BR instr s)
  else if op = OP_ADD then .ok (ADD instr s)
  else if op = OP_LD then .ok (LD instr s)
  else if op = OP_ST then .ok (ST instr s)
  else if op = OP_JSR then .ok (JSR instr s)
  else if op = OP_AND then .ok (AND instr s)
  else if op = OP_LDR then .ok (LDR instr s)
  else if op = OP_STR then .ok (STR instr s)
  else if op = OP_RTI then .error Fault.abort
  else if op = OP_NOT then .ok (NOT instr s)
  else if op = OP_LDI then .ok (LDI instr s)
  else if op = OP_STI then .ok (STI instr s)
  else if op = OP_JMP then .ok (JMP instr s)
  else if op = OP_RES then .error Fault.abort
  else if op = OP_LEA then .ok (LEA instr s)
  else if op = OP_TRAP then TRAP instr s
  else .ok s

/-- One iteration of the body of `while (run)`. -/
def step (s : State) : Except Fault State :=
  let f := fetch s
  dispatch f.1 f.2

/-- The loop `while (run)` cut after at most `n` iterations: the state when the
run flag was found clear, or the state after `n` iterations. -/
def loop : Nat → State → Except Fault State
  | 0, s => .ok s
  | n + 1, s =>
    if s.run = true then
      match step s with
      | .ok t => loop n t
      | .error e => .error e
    else .ok s

/-- The two assignments that open `execute`. -/
def execute_init (s : State) : State :=
  setReg R_PC PC_START (setReg R_COND FL_ZRO s)

/-- The function `execute`, its loop cut after at most `n` iterations. -/
def execute (n : Nat) (s : State) : Except Fault State :=
  loop n (execute_init s)

/-! ## The image loader -/

/-- The call `fread(ptr, sizeof(uint16_t), count, file)` on a little-endian
host: the complete two-byte items read, at most `count`, each as the
`uint16_t` the host sees, and the rest of the stream.  A trailing single byte
is not a complete item and is not counted. -/
def fread16 : Nat → List Nat → List Nat × List Nat
  | 0, bs => ([], bs)
  | n + 1, b0 :: b1 :: bs =>
    let r := fread16 n bs
    ((b0 % 256 + 256 * (b1 % 256)) :: r.1, r.2)
  | _ + 1, _ => ([], [])

/-- The items `fread` stored, in order, from `p` on. -/
def store_items : Nat → List Nat → State → State
  | _, [], s => s
  | p, w :: ws, s => store_items (p + 1) ws (setMem p w s)

/-- The loop `while (read-- > 0)` of `read_image_file`: swaps `read` words in
place from `p` on. -/
def swap_loop : Nat → Nat → State → State
  | 0, _, s => s
  | read + 1, p, s => swap_loop read (p + 1) (setMem p (swap16 (s.memory p)) s)

/-- The function `read_image_file` on the bytes of the file.  With fewer
than two bytes the first `fread` reads no item and `origin` stays
uninitialised: the result is `none`. -/
def read_image_file (file : List Nat) (s : State) : Option State :=
  match fread16 1 file with
  | ([o], rest) =>
    let origin := swap16 o
    let max_read := (UINT16_MAX - origin) % 65536
    let items := (fread16 max_read rest).1
    some (swap_loop items.length origin (store_items origin items s))
  | _ => none

/-- A machine as `new VM::vm()` creates it: memory and registers zeroed, the
run flag set; the console is a parameter. -/
def new_vm (input : List Nat) (keys : List Bool) : State :=
  { memory := fun _ => 0, regs := fun _ => 0, run := true,
    input := input, keys := keys, output := [] }

/-- Every word of the memory and of the register file is a `uint16_t`. -/
def WF (s : State) : Prop :=
  (∀ a, s.memory a < 65536) ∧ (∀ r, s.regs r < 65536)

/-- The flag-invariant of the specification, word for word: `c` is one of the
three flag values, it is the zero flag iff `v = 0`, the negative flag iff bit
15 of `v` is set, and the positive flag otherwise. -/
def CondOf (c v : Nat) : Prop :=
  (c = FL_ZRO ∨ c = FL_NEG ∨ c = FL_POS) ∧
  (c = FL_ZRO ↔ v = 0) ∧
  (c = FL_NEG ↔ v.testBit 15 = true) ∧
  (c = FL_POS ↔ (v ≠ 0 ∧ v.testBit 15 = false))

/-- The destination register field `instr[11:9]`. -/
def dr_field (instr : Nat) : Nat := (instr >>> 9) &&& 0x7

/-- COND holds one of the three flag values. -/
def CondInv (s : State) : Prop :=
  s.regs R_COND = FL_POS ∨ s.regs R_COND = FL_ZRO ∨ s.regs R_COND = FL_NEG

/-- The second operand of ADD and AND as the specification describes it: the
sign-extended `imm5` field when mode bit 5 of the instruction is set, the
register `instr[2:0]` otherwise. -/
def operand (instr : Nat) (s : State) : Nat :=
  if instr.testBit 5 = true then sign_extend (instr &&& 0x1f) 5 else s.regs (instr &&& 0x7)

/-- A state for LDI whose pointer cell is the keyboard status register: the
incremented PC is 0xFE00, `memory[0xFE00] = 5`, `memory[5] = 7`, and no key is
waiting. -/
def ldi_kbsr_state : State :=
  setMem 5 7 (setMem 0xFE00 5 (setReg R_PC 0xFE00 (new_vm [] [])))

/-- A state for LDI away from the keyboard registers: the incremented PC is
0x3001, `memory[0x3001] = 5`, `memory[5] = 7`. -/
def ldi_plain_state : State :=
  setMem 5 7 (setMem 0x3001 5 (setReg R_PC 0x3001 (new_vm [] [])))

/-- The bytes of a list of 16-bit words on disk, big-endian: high byte first. -/
def be_bytes : List Nat → List Nat
  | [] => []
  | w :: ws => (w / 256) :: (w % 256) :: be_bytes ws

/-- The image file of the specification: the origin word, then the payload
words, all big-endian. -/
def image_bytes (origin : Nat) (ws : List Nat) : List Nat :=
  (origin / 256) :: (origin % 256) :: be_bytes ws

/-- Re-serialising `n` words of memory from address `p` with the byte swap, as
the specification words it: each word is swapped with `swap16` and written in
the byte order of the little-endian host, low byte first. -/
def serialize (t : State) : Nat → Nat → List Nat
  | _, 0 => []
  | p, n + 1 =>
    (swap16 (t.memory p) % 256) :: (swap16 (t.memory p) / 256) :: serialize t (p + 1) n

/-- Two states that differ at most in their memory. -/
def SameOutsideMemory (t s : State) : Prop :=
  t.regs = s.regs ∧ t.run = s.run ∧ t.input = s.input ∧ t.keys = s.keys ∧ t.output = s.output

/-- A Running state about to fetch `TRAP 0x25` at 0x3000. -/
def halt_state : State := setMem 0x3000 0xF025 (execute_init (new_vm [] []))

/-- The image of the first end-to-end scenario: origin 0x3000, then
`ADD R0,R0,#0` and `TRAP 0x25`. -/
def scenario1_bytes : List Nat := [0x30, 0x00, 0x10, 0x20, 0xF0, 0x25]

/-- A Running state about to fetch the reserved opcode RTI (word 0x8000) at
0x3000. -/
def rti_state : State := setMem 0x3000 0x8000 (execute_init (new_vm [] []))

/-- A Running state with COND = FL_ZRO about to fetch `TRAP 0x23` (IN) at
0x3000, with the character 'A' (65) waiting on the input. -/
def trap_in_state : State := setMem 0x3000 0xF023 (execute_init (new_vm [65] []))

/-- A Running state about to fetch `TRAP 0x21` (OUT) at 0x3000. -/
def trap_out_state : State := setMem 0x3000 0xF021 (execute_init (new_vm [] []))

/-- A state in which the keyboard poll finds the character 'A' (65): `select`
reports stdin readable and `getchar` will deliver 65. -/
def key_ready_state : State := new_vm [65] [true]

/-- A Running state with PC = 0xFFFF about to fetch `LEA R0,#1` (0xE001) there. -/
def lea_wrap_state : State :=
  setMem 0xFFFF 0xE001 (setReg R_PC 0xFFFF (execute_init (new_vm [] [])))

/-- The image of the second end-to-end scenario: origin 0x3000, then
`LEA R0,#1` (0xE001), `STR R1,R0,#0` (0x7200) and `TRAP 0x25` (0xF025). -/
def scenario2_bytes : List Nat := [0x30, 0x00, 0xE0, 0x01, 0x72, 0x00, 0xF0, 0x25]

/-- The invariant of the second scenario: the machine is Running, LEA and STR
sit at 0x3000 and 0x3001, every other word is 0 except possibly the word at
0x3002 while PC is 0x3000 or 0x3001, R1 is 0, and R0 is 0x3002 when the STR is
about to run. -/
def Scenario2Inv (t : State) : Prop :=
  t.run = true ∧ t.memory 0x3000 = 0xE001 ∧ t.memory 0x3001 = 0x7200 ∧
  (∀ a, a ≠ 0x3000 → a ≠ 0x3001 → a ≠ 0x3002 → t.memory a = 0) ∧
  t.regs R_R1 = 0 ∧ t.regs R_PC < 65536 ∧
  (t.regs R_PC = 0x3001 → t.regs R_R0 = 0x3002) ∧
  (t.regs R_PC ≠ 0x3000 → t.regs R_PC ≠ 0x3001 → t.memory 0x3002 = 0)

/-- A state for `JSRR R7`: the incremented PC is 0x3001 and R7 holds the
subroutine address 0x4000. -/
def jsrr_r7_state : State := setReg R_R7 0x4000 (setReg R_PC 0x3001 (new_vm [] []))

/-- A Running state about to fetch `TRAP 0x22` (PUTS) at 0x3000 with R0 =
0xFFFF and the nonzero word 0x41 in the last memory cell: no zero word lies
between `memory + R0` and the end of `memory`. -/
def puts_overrun_state : State :=
  setMem 0xFFFF 0x41 (setMem 0x3000 0xF022 (setReg R_R0 0xFFFF (execute_init (new_vm [] []))))

/-- The same state with `TRAP 0x24` (PUTSP) at 0x3000. -/
def putsp_overrun_state : State :=
  setMem 0xFFFF 0x41 (setMem 0x3000 0xF024 (setReg R_R0 0xFFFF (execute_init (new_vm [] []))))

/-- The six trap vectors `TRAP` has a case for. -/
def defined_traps : List Nat :=
  [TRAP_GETC, TRAP_OUT, TRAP_PUTS, TRAP_IN, TRAP_PUTSP, TRAP_HALT]

/-- A Running state about to fetch `TRAP 0x26`, an undefined vector, at 0x3000,
with input waiting. -/
def trap_undefined_state : State := setMem 0x3000 0xF026 (execute_init (new_vm [65] [true]))

/-- A state for the store/load round trip: R1 = 0x1234 is the value to store
and R2 = 0x4000 the base address. -/
def round_trip_state : State :=
  setReg R_R2 0x4000 (setReg R_R1 0x1234 (execute_init (new_vm [] [])))

/-- A state at end of file: `select` reports stdin readable but `getchar` has
no character to deliver. -/
def key_eof_state : State := new_vm [] [true]

/-! # Theorems -/

/-! ## Sign extension -/

theorem sign_extend_testBit (x n : Nat) :
    sign_extend x n =
      if x.testBit (n - 1) = true then (x ||| (0xFFFF <<< n)) % 65536 else x := by
  unfold sign_extend
  have h : ((x >>> (n - 1)) &&& 1 ≠ 0) ↔ x.testBit (n - 1) = true := by
    simp [Nat.testBit, Nat.and_comm]
  by_cases hb : x.testBit (n - 1) = true
  · rw [if_pos (h.mpr hb), if_pos hb]
  · rw [if_neg (fun hc => hb (h.mp hc)), if_neg hb]

theorem or_ones_shift (x n : Nat) (hn : n ≤ 15) (hx : x < 2 ^ n) :
    (x ||| (0xFFFF <<< n)) % 65536 = x + 2 ^ 16 - 2 ^ n := by
  have h1 : (0xFFFF : Nat) <<< n = 2 ^ n * 0xFFFF := by
    rw [Nat.shiftLeft_eq, Nat.mul_comm]
  have h2 : 2 ^ n * 0xFFFF + x = 2 ^ n * 0xFFFF ||| x := Nat.mul_add_lt_is_or hx 0xFFFF
  rw [h1, Nat.lor_comm, ← h2]
  interval_cases n <;> omega

/-- C1: for a field width `n` with `1 ≤ n ≤ 15` and an `n`-bit value `x`, the
result of `sign_extend x n` is a 16-bit word whose low `n` bits are `x` and
whose bits `n..15` all equal bit `n - 1` of `x`; it is `x` when that bit is clear
and `x + 2^16 - 2^n` when it is set. -/
theorem sign_extend_spec (n x : Nat) (hn1 : 1 ≤ n) (hn : n ≤ 15) (hx : x < 2 ^ n) :
    sign_extend x n < 2 ^ 16 ∧
    sign_extend x n % 2 ^ n = x ∧
    (∀ i, n ≤ i → i < 16 → (sign_extend x n).testBit i = x.testBit (n - 1)) ∧
    sign_extend x n = (if x.testBit (n - 1) = true then x + 2 ^ 16 - 2 ^ n else x) := by
  have hx16 : x < 2 ^ 16 :=
    lt_of_lt_of_le hx (Nat.pow_le_pow_right (by decide) (by omega))
  have hpos : 0 < 2 ^ n := Nat.two_pow_pos n
  have hle : 2 ^ n ≤ 2 ^ 15 := Nat.pow_le_pow_right (by decide) hn
  by_cases hb : x.testBit (n - 1) = true
  · have hor := sign_extend_testBit x n
    rw [if_pos hb] at hor
    have hval : sign_extend x n = x + 2 ^ 16 - 2 ^ n := by
      rw [hor]; exact or_ones_shift x n hn hx
    refine ⟨?_, ?_, ?_, ?_⟩
    · rw [hval]; omega
    · rw [hval]
      have : x + 2 ^ 16 - 2 ^ n = x + 2 ^ n * (2 ^ (16 - n) - 1) := by
        have h16 : (2 : Nat) ^ 16 = 2 ^ n * 2 ^ (16 - n) := by
          rw [← Nat.pow_add]; congr 1; omega
        rw [Nat.mul_sub, Nat.mul_one, ← h16]
        omega
      rw [this, Nat.add_mul_mod_self_left, Nat.mod_eq_of_lt hx]
    · intro i hi hi16
      rw [hor, hb]
      have h65 : (65536 : Nat) = 2 ^ 16 := by norm_num
      have hff : (0xFFFF : Nat) = 2 ^ 16 - 1 := by norm_num
      rw [h65, Nat.testBit_mod_two_pow, Nat.testBit_lor, Nat.testBit_shiftLeft, hff,
        Nat.testBit_two_pow_sub_one]
      have h3 : i - n < 16 := by omega
      simp [hi, hi16, h3]
    · rw [if_pos hb]; exact hval
  · have hval : sign_extend x n = x := by
      rw [sign_extend_testBit, if_neg hb]
    have hfalse : x.testBit (n - 1) = false := by simpa using hb
    refine ⟨?_, ?_, ?_, ?_⟩
    · rw [hval]; exact hx16
    · rw [hval]; exact Nat.mod_eq_of_lt hx
    · intro i hi _
      rw [hval, hfalse]
      exact Nat.testBit_lt_two_pow (lt_of_lt_of_le hx (Nat.pow_le_pow_right (by decide) hi))
    · rw [if_neg hb]; exact hval

theorem sign_extend_spec_witness :
    (1 ≤ 5 ∧ 5 ≤ 15 ∧ 0x1F < 2 ^ 5) ∧
    sign_extend 0x1F 5 < 2 ^ 16 ∧
    sign_extend 0x1F 5 % 2 ^ 5 = 0x1F ∧
    (∀ i, 5 ≤ i → i < 16 → (sign_extend 0x1F 5).testBit i = (0x1F).testBit (5 - 1)) ∧
    sign_extend 0x1F 5 = (if (0x1F).testBit (5 - 1) = true then 0x1F + 2 ^ 16 - 2 ^ 5 else 0x1F) :=
  ⟨by decide, sign_extend_spec 5 0x1F (by decide) (by decide) (by decide)⟩

/-! ## Flags -/

@[simp] theorem FL_POS_eq : FL_POS = 1 := rfl
@[simp] theorem FL_ZRO_eq : FL_ZRO = 2 := rfl
@[simp] theorem FL_NEG_eq : FL_NEG = 4 := rfl
@[simp] theorem MEMORY_MAX_eq : MEMORY_MAX = 65536 := rfl

theorem field3_le (x : Nat) : x &&& 0x7 ≤ 7 := Nat.and_le_right

theorem shift15_testBit (w : Nat) (hw : w < 65536) :
    (w >>> 15 ≠ 0) ↔ w.testBit 15 = true := by
  rw [Nat.shiftRight_eq_div_pow, Nat.testBit_to_div_mod]
  have : w / 2 ^ 15 < 2 := by
    rw [Nat.div_lt_iff_lt_mul (by norm_num)]; omega
  simp only [decide_eq_true_eq]
  omega

theorem condOf_word (w : Nat) (hw : w < 65536) :
    CondOf (if w = 0 then FL_ZRO else if w >>> 15 ≠ 0 then FL_NEG else FL_POS) w := by
  have hb := shift15_testBit w hw
  by_cases h0 : w = 0
  · subst h0; simp [CondOf]
  · by_cases h15 : w >>> 15 ≠ 0
    · have ht := hb.mp h15
      rw [if_neg h0, if_pos h15]
      simp [CondOf, h0, ht]
    · have ht : w.testBit 15 = false := by
        cases hc : w.testBit 15
        · rfl
        · exact absurd (hb.mpr hc) h15
      rw [if_neg h0, if_neg h15]
      simp [CondOf, h0, ht]

theorem update_flags_cond (r : Nat) (s : State) :
    (update_flags r s).regs R_COND =
      (if s.regs r = 0 then FL_ZRO else if s.regs r >>> 15 ≠ 0 then FL_NEG else FL_POS) := by
  unfold update_flags
  split
  · simp [setReg]
  · split <;> simp [setReg]

theorem update_flags_other (r i : Nat) (s : State) (hi : i ≠ R_COND) :
    (update_flags r s).regs i = s.regs i := by
  unfold update_flags
  split
  · simp [setReg, hi]
  · split <;> simp [setReg, hi]

theorem update_flags_setReg (r v : Nat) (s : State) (hr : r ≤ 7) :
    (update_flags r (setReg r v s)).regs r = v % 65536 ∧
    CondOf ((update_flags r (setReg r v s)).regs R_COND) (v % 65536) := by
  have hne : r ≠ R_COND := by simp only [R_COND]; omega
  have hreg : (setReg r v s).regs r = v % 65536 := by simp [setReg]
  constructor
  · rw [update_flags_other _ _ _ hne, hreg]
  · rw [update_flags_cond, hreg]
    exact condOf_word _ (Nat.mod_lt _ (by norm_num))

/-! ## Dispatch -/

theorem dispatch_ADD (instr : Nat) (s : State) (h : instr >>> 12 = OP_ADD) :
    dispatch instr s = .ok (ADD instr s) := by
  simp [dispatch, h]

theorem dispatch_AND (instr : Nat) (s : State) (h : instr >>> 12 = OP_AND) :
    dispatch instr s = .ok (AND instr s) := by
  simp [dispatch, h]

theorem dispatch_NOT (instr : Nat) (s : State) (h : instr >>> 12 = OP_NOT) :
    dispatch instr s = .ok (NOT instr s) := by
  simp [dispatch, h]

theorem dispatch_LD (instr : Nat) (s : State) (h : instr >>> 12 = OP_LD) :
    dispatch instr s = .ok (LD instr s) := by
  simp [dispatch, h]

theorem dispatch_LDI (instr : Nat) (s : State) (h : instr >>> 12 = OP_LDI) :
    dispatch instr s = .ok (LDI instr s) := by
  simp [dispatch, h]

theorem dispatch_LDR (instr : Nat) (s : State) (h : instr >>> 12 = OP_LDR) :
    dispatch instr s = .ok (LDR instr s) := by
  simp [dispatch, h]

theorem dispatch_LEA (instr : Nat) (s : State) (h : instr >>> 12 = OP_LEA) :
    dispatch instr s = .ok (LEA instr s) := by
  simp [dispatch, h]

theorem dispatch_BR (instr : Nat) (s : State) (h : instr >>> 12 = OP_BR) :
    dispatch instr s = .ok (BR instr s) := by
  simp [dispatch, h]

theorem dispatch_ST (instr : Nat) (s : State) (h : instr >>> 12 = OP_ST) :
    dispatch instr s = .ok (ST instr s) := by
  simp [dispatch, h]

theorem dispatch_JSR (instr : Nat) (s : State) (h : instr >>> 12 = OP_JSR) :
    dispatch instr s = .ok (JSR instr s) := by
  simp [dispatch, h]

theorem dispatch_STR (instr : Nat) (s : State) (h : instr >>> 12 = OP_STR) :
    dispatch instr s = .ok (STR instr s) := by
  simp [dispatch, h]

theorem dispatch_STI (instr : Nat) (s : State) (h : instr >>> 12 = OP_STI) :
    dispatch instr s = .ok (STI instr s) := by
  simp [dispatch, h]

theorem dispatch_JMP (instr : Nat) (s : State) (h : instr >>> 12 = OP_JMP) :
    dispatch instr s = .ok (JMP instr s) := by
  simp [dispatch, h]

theorem dispatch_TRAP (instr : Nat) (s : State) (h : instr >>> 12 = OP_TRAP) :
    dispatch instr s = TRAP instr s := by
  simp [dispatch, h]

/-- Each of the seven flag-setting handlers ends in `update_flags dr` right
after the assignment to `regs[dr]`. -/
theorem flag_setting_shape (instr : Nat) (s : State)
    (hop : instr >>> 12 ∈ [OP_ADD, OP_AND, OP_NOT, OP_LD, OP_LDI, OP_LDR, OP_LEA]) :
    ∃ v s1, dispatch instr s = .ok (update_flags (dr_field instr) (setReg (dr_field instr) v s1)) := by
  simp only [List.mem_cons, List.mem_singleton, List.not_mem_nil, or_false] at hop
  rcases hop with h | h | h | h | h | h | h
  · rw [dispatch_ADD _ _ h]
    unfold ADD dr_field
    by_cases hi : (instr >>> 5) &&& 0x1 ≠ 0
    · simp only []; rw [if_pos hi]; exact ⟨_, _, rfl⟩
    · simp only []; rw [if_neg hi]; exact ⟨_, _, rfl⟩
  · rw [dispatch_AND _ _ h]
    unfold AND dr_field
    by_cases hi : (instr >>> 5) &&& 0x1 ≠ 0
    · simp only []; rw [if_pos hi]; exact ⟨_, _, rfl⟩
    · simp only []; rw [if_neg hi]; exact ⟨_, _, rfl⟩
  · rw [dispatch_NOT _ _ h]; exact ⟨_, _, rfl⟩
  · rw [dispatch_LD _ _ h]; exact ⟨_, _, rfl⟩
  · rw [dispatch_LDI _ _ h]; exact ⟨_, _, rfl⟩
  · rw [dispatch_LDR _ _ h]; exact ⟨_, _, rfl⟩
  · rw [dispatch_LEA _ _ h]; exact ⟨_, _, rfl⟩

/-- C2: for every state and every instruction word whose opcode is ADD, AND,
NOT, LD, LDI, LDR or LEA the instruction executes without fault, and afterwards
COND is one of the three flag values, fixed by the word `v` now in the
destination register `instr[11:9]`: the zero flag iff `v = 0`, the negative
flag iff bit 15 of `v` is set, the positive flag otherwise. -/
theorem flag_setting_cond (instr : Nat) (s : State)
    (hop : instr >>> 12 ∈ [OP_ADD, OP_AND, OP_NOT, OP_LD, OP_LDI, OP_LDR, OP_LEA]) :
    ∃ t, dispatch instr s = .ok t ∧
      CondOf (t.regs R_COND) (t.regs ((instr >>> 9) &&& 0x7)) := by
  obtain ⟨v, s1, hd⟩ := flag_setting_shape instr s hop
  refine ⟨_, hd, ?_⟩
  have h := update_flags_setReg (dr_field instr) v s1 (field3_le _)
  have hdr : (instr >>> 9) &&& 0x7 = dr_field instr := rfl
  rw [hdr, h.1]
  exact h.2

theorem flag_setting_cond_witness :
    (0x1020 >>> 12 ∈ [OP_ADD, OP_AND, OP_NOT, OP_LD, OP_LDI, OP_LDR, OP_LEA]) ∧
    ∃ t, dispatch 0x1020 (new_vm [] []) = .ok t ∧
      CondOf (t.regs R_COND) (t.regs ((0x1020 >>> 9) &&& 0x7)) :=
  ⟨by decide, flag_setting_cond 0x1020 (new_vm [] []) (by decide)⟩

/-! ## Registers across memory and console operations -/

theorem check_key_regs (s : State) : (check_key s).2.regs = s.regs := by
  unfold check_key; split <;> rfl

theorem check_key_memory (s : State) : (check_key s).2.memory = s.memory := by
  unfold check_key; split <;> rfl

theorem getchar_regs (s : State) : (getchar s).2.regs = s.regs := by
  unfold getchar; split <;> rfl

theorem getchar_memory (s : State) : (getchar s).2.memory = s.memory := by
  unfold getchar; split <;> rfl

theorem getchar_run (s : State) : (getchar s).2.run = s.run := by
  unfold getchar; split <;> rfl

theorem check_key_run (s : State) : (check_key s).2.run = s.run := by
  unfold check_key; split <;> rfl

theorem mem_read_regs (a : Nat) (s : State) : (mem_read a s).2.regs = s.regs := by
  unfold mem_read
  by_cases ha : a % 65536 = MR_KBSR
  · by_cases hk : (check_key s).1 = true
    · simp only [ha, hk, if_true]
      show (getchar (setMem MR_KBSR (1 <<< 15) (check_key s).2)).2.regs = s.regs
      rw [getchar_regs]; exact check_key_regs s
    · simp only [ha, hk, if_true, if_false]
      exact check_key_regs s
  · simp only [ha, if_false]

theorem mem_read_run (a : Nat) (s : State) : (mem_read a s).2.run = s.run := by
  unfold mem_read
  by_cases ha : a % 65536 = MR_KBSR
  · by_cases hk : (check_key s).1 = true
    · simp only [ha, hk, if_true]
      show (getchar (setMem MR_KBSR (1 <<< 15) (check_key s).2)).2.run = s.run
      rw [getchar_run]; exact check_key_run s
    · simp only [ha, hk, if_true, if_false]
      exact check_key_run s
  · simp only [ha, if_false]

theorem mem_write_regs (a v : Nat) (s : State) : (mem_write a v s).regs = s.regs := rfl

theorem setReg_other (r v i : Nat) (s : State) (h : i ≠ r) : (setReg r v s).regs i = s.regs i := by
  simp [setReg, h]

theorem setReg_same (r v : Nat) (s : State) : (setReg r v s).regs r = v % 65536 := by
  simp [setReg]

/-! ## The COND invariant -/

theorem update_flags_inv (r : Nat) (s : State) : CondInv (update_flags r s) := by
  unfold CondInv
  rw [update_flags_cond]
  split
  · right; left; rfl
  · split
    · right; right; rfl
    · left; rfl

theorem TRAP_cond (instr : Nat) (s t : State) (h : TRAP instr s = .ok t) :
    t.regs R_COND = s.regs R_COND ∨ CondInv t := by
  unfold TRAP at h
  simp only [] at h
  split_ifs at h
  · cases h; left
    rw [setReg_other _ _ _ _ (by decide), getchar_regs]
  · cases h; left; rfl
  · split at h
    · cases h; left; rfl
    · cases h
  · cases h; right; exact update_flags_inv _ _
  · split at h
    · cases h; left; rfl
    · cases h
  · cases h; left; rfl
  · cases h; left; rfl

theorem dispatch_RTI (instr : Nat) (s : State) (h : instr >>> 12 = OP_RTI) :
    dispatch instr s = .error Fault.abort := by
  simp [dispatch, h]

theorem dispatch_RES (instr : Nat) (s : State) (h : instr >>> 12 = OP_RES) :
    dispatch instr s = .error Fault.abort := by
  simp [dispatch, h]

theorem dispatch_none (instr : Nat) (s : State) (h : 16 ≤ instr >>> 12) :
    dispatch instr s = .ok s := by
  have h0 : instr >>> 12 ≠ 0 := by omega
  have h1 : instr >>> 12 ≠ 1 := by omega
  have h2 : instr >>> 12 ≠ 2 := by omega
  have h3 : instr >>> 12 ≠ 3 := by omega
  have h4 : instr >>> 12 ≠ 4 := by omega
  have h5 : instr >>> 12 ≠ 5 := by omega
  have h6 : instr >>> 12 ≠ 6 := by omega
  have h7 : instr >>> 12 ≠ 7 := by omega
  have h8 : instr >>> 12 ≠ 8 := by omega
  have h9 : instr >>> 12 ≠ 9 := by omega
  have h10 : instr >>> 12 ≠ 10 := by omega
  have h11 : instr >>> 12 ≠ 11 := by omega
  have h12 : instr >>> 12 ≠ 12 := by omega
  have h13 : instr >>> 12 ≠ 13 := by omega
  have h14 : instr >>> 12 ≠ 14 := by omega
  have h15 : instr >>> 12 ≠ 15 := by omega
  simp [dispatch, h0, h1, h2, h3, h4, h5, h6, h7, h8, h9, h10, h11, h12, h13, h14, h15]

theorem dispatch_cond (instr : Nat) (s t : State) (h : dispatch instr s = .ok t) :
    t.regs R_COND = s.regs R_COND ∨ CondInv t := by
  rcases Nat.lt_or_ge (instr >>> 12) 16 with hlt | hge
  · generalize hop : instr >>> 12 = op at hlt
    interval_cases op
    · rw [dispatch_BR _ _ hop] at h
      cases h; left; unfold BR; simp only []; split
      · exact setReg_other _ _ _ _ (by decide)
      · rfl
    · rw [dispatch_ADD _ _ hop] at h
      cases h; right; unfold ADD; simp only []; split <;> exact update_flags_inv _ _
    · rw [dispatch_LD _ _ hop] at h
      cases h; right; exact update_flags_inv _ _
    · rw [dispatch_ST _ _ hop] at h
      cases h; left; rfl
    · rw [dispatch_JSR _ _ hop] at h
      cases h; left; unfold JSR; simp only []; split
      · rw [setReg_other _ _ _ _ (by decide), setReg_other _ _ _ _ (by decide)]
      · rw [setReg_other _ _ _ _ (by decide), setReg_other _ _ _ _ (by decide)]
    · rw [dispatch_AND _ _ hop] at h
      cases h; right; unfold AND; simp only []; split <;> exact update_flags_inv _ _
    · rw [dispatch_LDR _ _ hop] at h
      cases h; right; exact update_flags_inv _ _
    · rw [dispatch_STR _ _ hop] at h
      cases h; left; rfl
    · rw [dispatch_RTI _ _ hop] at h
      cases h
    · rw [dispatch_NOT _ _ hop] at h
      cases h; right; exact update_flags_inv _ _
    · rw [dispatch_LDI _ _ hop] at h
      cases h; right; exact update_flags_inv _ _
    · rw [dispatch_STI _ _ hop] at h
      cases h; left
      show (mem_write _ _ (mem_read _ s).2).regs R_COND = s.regs R_COND
      rw [mem_write_regs, mem_read_regs]
    · rw [dispatch_JMP _ _ hop] at h
      cases h; left; exact setReg_other _ _ _ _ (by decide)
    · rw [dispatch_RES _ _ hop] at h
      cases h
    · rw [dispatch_LEA _ _ hop] at h
      cases h; right; exact update_flags_inv _ _
    · rw [dispatch_TRAP _ _ hop] at h
      exact TRAP_cond _ _ _ h
  · rw [dispatch_none _ _ hge] at h
    cases h; left; rfl

theorem step_inv (s t : State) (hs : CondInv s) (h : step s = .ok t) : CondInv t := by
  unfold step at h
  rcases dispatch_cond _ _ _ h with hc | hc
  · unfold CondInv at hs ⊢
    have hf : (fetch s).2.regs R_COND = s.regs R_COND := setReg_other _ _ _ _ (by decide)
    rw [hc, hf]; exact hs
  · exact hc

theorem loop_inv (n : Nat) : ∀ (s t : State), CondInv s → loop n s = .ok t → CondInv t := by
  induction n with
  | zero =>
    intro s t hs h
    cases h; exact hs
  | succ n ih =>
    intro s t hs h
    unfold loop at h
    split_ifs at h
    · cases hstep : step s with
      | ok u =>
        rw [hstep] at h
        exact ih u t (step_inv s u hs hstep) h
      | error e => rw [hstep] at h; cases h
    · cases h; exact hs

theorem execute_init_inv (s : State) : CondInv (execute_init s) := by
  right; left
  show (setReg R_PC PC_START (setReg R_COND FL_ZRO s)).regs R_COND = FL_ZRO
  rw [setReg_other _ _ _ _ (by decide), setReg_same]; rfl

/-- C3: `execute` starts from PC = 0x3000 and COND = FL_ZRO, and in every state
the loop reaches from there after any number of iterations, for any memory
contents and any console input, COND is one of FL_POS (1), FL_ZRO (2) and
FL_NEG (4). -/
theorem cond_reachable_invariant (s t : State) (n : Nat) (h : execute n s = .ok t) :
    (execute_init s).regs R_PC = 0x3000 ∧ (execute_init s).regs R_COND = 2 ∧
    (t.regs R_COND = 1 ∨ t.regs R_COND = 2 ∨ t.regs R_COND = 4) := by
  refine ⟨?_, ?_, ?_⟩
  · show (setReg R_PC PC_START (setReg R_COND FL_ZRO s)).regs R_PC = 0x3000
    rw [setReg_same]; rfl
  · show (setReg R_PC PC_START (setReg R_COND FL_ZRO s)).regs R_COND = 2
    rw [setReg_other _ _ _ _ (by decide), setReg_same]; rfl
  · exact loop_inv n _ t (execute_init_inv s) h

theorem cond_reachable_invariant_witness :
    execute 3 (new_vm [] []) = .ok (setReg R_PC 0x3003 (execute_init (new_vm [] []))) ∧
    (execute_init (new_vm [] [])).regs R_PC = 0x3000 ∧
    (execute_init (new_vm [] [])).regs R_COND = 2 ∧
    ((setReg R_PC 0x3003 (execute_init (new_vm [] []))).regs R_COND = 1 ∨
     (setReg R_PC 0x3003 (execute_init (new_vm [] []))).regs R_COND = 2 ∨
     (setReg R_PC 0x3003 (execute_init (new_vm [] []))).regs R_COND = 4) :=
  have h : execute 3 (new_vm [] []) =
      .ok (setReg R_PC 0x3003 (execute_init (new_vm [] []))) := by
    simp only [execute, loop, step, fetch, dispatch, BR, execute_init, setReg, new_vm]
    simp
    funext i
    by_cases hi : i = 8
    · simp only [hi, if_true]; rfl
    · simp [hi]
  ⟨h, cond_reachable_invariant (new_vm [] []) _ 3 h⟩

/-! ## Branch -/

/-- C4: for every state (its PC already incremented by the fetch) and every BR
instruction word with mask `m = instr[11:9]` and offset field
`off = instr[8:0]`, the branch runs without fault; the new PC is
`(PC + sign_extend off 9) mod 2^16` when `m & COND ≠ 0` and the old PC when
`m & COND = 0`, so PC changes only if `m & COND ≠ 0`; all other registers
(R0-R7 and COND), the memory, the run flag and the console are unchanged. -/
theorem BR_gating (instr : Nat) (s : State) (hop : instr >>> 12 = OP_BR) :
    ∃ t, dispatch instr s = .ok t ∧
      (((instr >>> 9) &&& 0x7) &&& s.regs R_COND ≠ 0 →
        t.regs R_PC = (s.regs R_PC + sign_extend (instr &&& 0x1ff) 9) % 65536) ∧
      (((instr >>> 9) &&& 0x7) &&& s.regs R_COND = 0 → t.regs R_PC = s.regs R_PC) ∧
      (t.regs R_PC ≠ s.regs R_PC → ((instr >>> 9) &&& 0x7) &&& s.regs R_COND ≠ 0) ∧
      (∀ i, i ≠ R_PC → t.regs i = s.regs i) ∧
      t.memory = s.memory ∧ t.run = s.run ∧
      t.input = s.input ∧ t.keys = s.keys ∧ t.output = s.output := by
  refine ⟨BR instr s, dispatch_BR instr s hop, ?_⟩
  by_cases hc : ((instr >>> 9) &&& 0x7) &&& s.regs R_COND ≠ 0
  · have hbr : BR instr s = setReg R_PC (s.regs R_PC + sign_extend (instr &&& 0x1ff) 9) s := by
      unfold BR; simp only []; rw [if_pos hc]
    rw [hbr]
    refine ⟨fun _ => setReg_same _ _ _, fun h0 => absurd h0 hc, fun _ => hc,
      fun i hi => setReg_other _ _ _ _ hi, rfl, rfl, rfl, rfl, rfl⟩
  · have hbr : BR instr s = s := by
      unfold BR; simp only []; rw [if_neg hc]
    rw [hbr]
    exact ⟨fun h1 => absurd h1 hc, fun _ => rfl, fun h => absurd rfl h,
      fun _ _ => rfl, rfl, rfl, rfl, rfl, rfl⟩

theorem BR_gating_witness :
    (0x0403 >>> 12 = OP_BR) ∧
    ∃ t, dispatch 0x0403 (execute_init (new_vm [] [])) = .ok t ∧
      (((0x0403 >>> 9) &&& 0x7) &&& (execute_init (new_vm [] [])).regs R_COND ≠ 0 →
        t.regs R_PC = ((execute_init (new_vm [] [])).regs R_PC
          + sign_extend (0x0403 &&& 0x1ff) 9) % 65536) ∧
      (((0x0403 >>> 9) &&& 0x7) &&& (execute_init (new_vm [] [])).regs R_COND = 0 →
        t.regs R_PC = (execute_init (new_vm [] [])).regs R_PC) ∧
      (t.regs R_PC ≠ (execute_init (new_vm [] [])).regs R_PC →
        ((0x0403 >>> 9) &&& 0x7) &&& (execute_init (new_vm [] [])).regs R_COND ≠ 0) ∧
      (∀ i, i ≠ R_PC → t.regs i = (execute_init (new_vm [] [])).regs i) ∧
      t.memory = (execute_init (new_vm [] [])).memory ∧
      t.run = (execute_init (new_vm [] [])).run ∧
      t.input = (execute_init (new_vm [] [])).input ∧
      t.keys = (execute_init (new_vm [] [])).keys ∧
      t.output = (execute_init (new_vm [] [])).output :=
  ⟨by decide, BR_gating 0x0403 (execute_init (new_vm [] [])) (by decide)⟩

/-! ## ADD and AND -/

theorem mode_bit (instr : Nat) : ((instr >>> 5) &&& 0x1 ≠ 0) ↔ instr.testBit 5 = true := by
  simp [Nat.testBit, Nat.and_comm]

theorem sign_extend_lt (x n : Nat) (hx : x < 65536) : sign_extend x n < 65536 := by
  unfold sign_extend
  split
  · exact Nat.mod_lt _ (by norm_num)
  · exact hx

theorem ADD_reg (instr : Nat) (s : State) :
    (ADD instr s).regs ((instr >>> 9) &&& 0x7) =
      (s.regs ((instr >>> 6) &&& 0x7) + operand instr s) % 65536 := by
  unfold ADD operand
  simp only []
  by_cases hm : (instr >>> 5) &&& 0x1 ≠ 0
  · rw [if_pos hm, if_pos ((mode_bit instr).mp hm)]
    exact (update_flags_setReg _ _ _ (field3_le _)).1
  · rw [if_neg hm, if_neg (fun h => hm ((mode_bit instr).mpr h))]
    exact (update_flags_setReg _ _ _ (field3_le _)).1

theorem AND_reg (instr : Nat) (s : State) :
    (AND instr s).regs ((instr >>> 9) &&& 0x7) =
      (s.regs ((instr >>> 6) &&& 0x7) &&& operand instr s) % 65536 := by
  unfold AND operand
  simp only []
  by_cases hm : (instr >>> 5) &&& 0x1 ≠ 0
  · rw [if_pos hm, if_pos ((mode_bit instr).mp hm)]
    exact (update_flags_setReg _ _ _ (field3_le _)).1
  · rw [if_neg hm, if_neg (fun h => hm ((mode_bit instr).mpr h))]
    exact (update_flags_setReg _ _ _ (field3_le _)).1

/-- C5: in a state whose registers hold 16-bit words, with `dr = instr[11:9]`,
`sr1 = instr[8:6]` and the operand `sign_extend(instr[4:0], 5)` when mode bit 5
is set and `reg[instr[2:0]]` otherwise (all read before `dr` is written), ADD
runs without fault and leaves `reg[dr] = (reg[sr1] + operand) mod 2^16`, AND
runs without fault and leaves `reg[dr] = reg[sr1] & operand`.  In immediate
mode with `reg[sr1] = 0`, ADD leaves `reg[dr] = sign_extend(imm5, 5)`; ADD of
0xFFFF and 1 leaves 0. -/
theorem ADD_AND_compute (instr : Nat) (s : State) (hwf : WF s)
    (hop : instr >>> 12 = OP_ADD ∨ instr >>> 12 = OP_AND) :
    ∃ t, dispatch instr s = .ok t ∧
      t.regs ((instr >>> 9) &&& 0x7)
        = (if instr >>> 12 = OP_ADD then
            (s.regs ((instr >>> 6) &&& 0x7) + operand instr s) % 65536
          else s.regs ((instr >>> 6) &&& 0x7) &&& operand instr s) ∧
      (instr >>> 12 = OP_ADD → instr.testBit 5 = true → s.regs ((instr >>> 6) &&& 0x7) = 0 →
        t.regs ((instr >>> 9) &&& 0x7) = sign_extend (instr &&& 0x1f) 5) ∧
      (instr >>> 12 = OP_ADD → s.regs ((instr >>> 6) &&& 0x7) = 0xFFFF → operand instr s = 1 →
        t.regs ((instr >>> 9) &&& 0x7) = 0) := by
  rcases hop with hop | hop
  · refine ⟨ADD instr s, dispatch_ADD instr s hop, ?_, ?_, ?_⟩
    · rw [if_pos hop]; exact ADD_reg instr s
    · intro _ hm h0
      rw [ADD_reg, h0, Nat.zero_add]
      unfold operand
      rw [if_pos hm]
      exact Nat.mod_eq_of_lt
        (sign_extend_lt _ _ (lt_of_le_of_lt Nat.and_le_right (by norm_num)))
    · intro _ h1 h2
      rw [ADD_reg, h1, h2]
  · have hne : ¬ instr >>> 12 = OP_ADD := by rw [hop]; decide
    refine ⟨AND instr s, dispatch_AND instr s hop, ?_, fun h => absurd h hne,
      fun h => absurd h hne⟩
    rw [if_neg hne, AND_reg]
    exact Nat.mod_eq_of_lt (lt_of_le_of_lt Nat.and_le_left (hwf.2 _))

theorem new_vm_WF (input : List Nat) (keys : List Bool) : WF (new_vm input keys) :=
  ⟨fun _ => by simp [new_vm], fun _ => by simp [new_vm]⟩

theorem setReg_WF (r v : Nat) (s : State) (h : WF s) : WF (setReg r v s) := by
  refine ⟨h.1, fun i => ?_⟩
  show (if i = r then v % 65536 else s.regs i) < 65536
  split
  · exact Nat.mod_lt _ (by norm_num)
  · exact h.2 i

theorem setMem_WF (a v : Nat) (s : State) (h : WF s) : WF (setMem a v s) := by
  refine ⟨fun i => ?_, h.2⟩
  show (if i = a then v % 65536 else s.memory i) < 65536
  split
  · exact Nat.mod_lt _ (by norm_num)
  · exact h.1 i

theorem ADD_AND_compute_witness :
    (WF (setReg R_R1 0xFFFF (new_vm [] [])) ∧
      (0x1061 >>> 12 = OP_ADD ∨ 0x1061 >>> 12 = OP_AND)) ∧
    ∃ t, dispatch 0x1061 (setReg R_R1 0xFFFF (new_vm [] [])) = .ok t ∧
      t.regs ((0x1061 >>> 9) &&& 0x7)
        = (if 0x1061 >>> 12 = OP_ADD then
            ((setReg R_R1 0xFFFF (new_vm [] [])).regs ((0x1061 >>> 6) &&& 0x7)
              + operand 0x1061 (setReg R_R1 0xFFFF (new_vm [] []))) % 65536
          else (setReg R_R1 0xFFFF (new_vm [] [])).regs ((0x1061 >>> 6) &&& 0x7)
              &&& operand 0x1061 (setReg R_R1 0xFFFF (new_vm [] []))) ∧
      (0x1061 >>> 12 = OP_ADD → (0x1061).testBit 5 = true →
        (setReg R_R1 0xFFFF (new_vm [] [])).regs ((0x1061 >>> 6) &&& 0x7) = 0 →
        t.regs ((0x1061 >>> 9) &&& 0x7) = sign_extend (0x1061 &&& 0x1f) 5) ∧
      (0x1061 >>> 12 = OP_ADD →
        (setReg R_R1 0xFFFF (new_vm [] [])).regs ((0x1061 >>> 6) &&& 0x7) = 0xFFFF →
        operand 0x1061 (setReg R_R1 0xFFFF (new_vm [] [])) = 1 →
        t.regs ((0x1061 >>> 9) &&& 0x7) = 0) :=
  ⟨⟨setReg_WF _ _ _ (new_vm_WF [] []), by decide⟩,
    ADD_AND_compute 0x1061 (setReg R_R1 0xFFFF (new_vm [] []))
      (setReg_WF _ _ _ (new_vm_WF [] [])) (by decide)⟩

/-! ## LDI -/

theorem mem_read_plain (a : Nat) (s : State) (ha : a % 65536 ≠ MR_KBSR) :
    mem_read a s = (s.memory (a % 65536), s) := by
  unfold mem_read
  simp only []
  rw [if_neg ha]

/-- C6, as stated, fails on the keyboard status register: with the incremented
PC at 0xFE00, offset 0, `mem[0xFE00] = 5` and `mem[5] = 7`, the first read of
LDI polls the keyboard, clears the status word and returns 0, so LDI loads
`mem[0] = 0` instead of 7. -/
theorem LDI_kbsr_counterexample :
    WF ldi_kbsr_state ∧ 0xA000 >>> 12 = OP_LDI ∧
    ldi_kbsr_state.memory
      ((ldi_kbsr_state.regs R_PC + sign_extend (0xA000 &&& 0x1ff) 9) % 65536) = 5 ∧
    ldi_kbsr_state.memory 5 = 7 ∧
    dispatch 0xA000 ldi_kbsr_state = .ok (LDI 0xA000 ldi_kbsr_state) ∧
    (LDI 0xA000 ldi_kbsr_state).regs ((0xA000 >>> 9) &&& 0x7) = 0 ∧
    (LDI 0xA000 ldi_kbsr_state).regs ((0xA000 >>> 9) &&& 0x7) ≠ 7 := by
  refine ⟨?_, by decide, by decide, by decide, dispatch_LDI _ _ (by decide), ?_, ?_⟩
  · exact setMem_WF _ _ _ (setMem_WF _ _ _ (setReg_WF _ _ _ (new_vm_WF [] [])))
  · decide
  · decide

/-- C6, amended: in a state of 16-bit words, if `mem[(PC + sign_extend(off, 9))
mod 2^16] = A` and `mem[A] = V` (PC being the incremented program counter) and
neither that pointer address nor `A` is the keyboard status address 0xFE00,
then LDI runs without fault and leaves `reg[dr] = V`, with COND set from `V`. -/
theorem LDI_double_indirection (instr : Nat) (s : State) (A V : Nat) (hwf : WF s)
    (hop : instr >>> 12 = OP_LDI)
    (h1 : s.memory ((s.regs R_PC + sign_extend (instr &&& 0x1ff) 9) % 65536) = A)
    (h2 : s.memory A = V)
    (ha : (s.regs R_PC + sign_extend (instr &&& 0x1ff) 9) % 65536 ≠ 0xFE00)
    (hA : A ≠ 0xFE00) :
    ∃ t, dispatch instr s = .ok t ∧
      t.regs ((instr >>> 9) &&& 0x7) = V ∧ CondOf (t.regs R_COND) V := by
  have hA16 : A < 65536 := by rw [← h1]; exact hwf.1 _
  have hV16 : V < 65536 := by rw [← h2]; exact hwf.1 _
  have hAm : A % 65536 = A := Nat.mod_eq_of_lt hA16
  have hr1 : mem_read (s.regs R_PC + sign_extend (instr &&& 0x1ff) 9) s = (A, s) := by
    rw [mem_read_plain _ _ ha, h1]
  have hr2 : mem_read A s = (V, s) := by
    rw [mem_read_plain _ _ (by rw [hAm]; exact hA), hAm, h2]
  have hldi : LDI instr s
      = update_flags ((instr >>> 9) &&& 0x7) (setReg ((instr >>> 9) &&& 0x7) V s) := by
    unfold LDI
    simp only []
    rw [hr1]
    simp only []
    rw [hr2]
  refine ⟨LDI instr s, dispatch_LDI instr s hop, ?_⟩
  have h := update_flags_setReg ((instr >>> 9) &&& 0x7) V s (field3_le _)
  rw [Nat.mod_eq_of_lt hV16] at h
  rw [hldi]
  exact h

theorem LDI_double_indirection_witness :
    (WF ldi_plain_state ∧ 0xA000 >>> 12 = OP_LDI ∧
      ldi_plain_state.memory
        ((ldi_plain_state.regs R_PC + sign_extend (0xA000 &&& 0x1ff) 9) % 65536) = 5 ∧
      ldi_plain_state.memory 5 = 7 ∧
      (ldi_plain_state.regs R_PC + sign_extend (0xA000 &&& 0x1ff) 9) % 65536 ≠ 0xFE00 ∧
      5 ≠ 0xFE00) ∧
    ∃ t, dispatch 0xA000 ldi_plain_state = .ok t ∧
      t.regs ((0xA000 >>> 9) &&& 0x7) = 7 ∧ CondOf (t.regs R_COND) 7 :=
  have hwf : WF ldi_plain_state :=
    setMem_WF _ _ _ (setMem_WF _ _ _ (setReg_WF _ _ _ (new_vm_WF [] [])))
  ⟨⟨hwf, by decide, by decide, by decide, by decide, by decide⟩,
    LDI_double_indirection 0xA000 ldi_plain_state 5 7 hwf (by decide) (by decide)
      (by decide) (by decide) (by decide)⟩

/-! ## The image loader -/

theorem swap16_eq (x : Nat) (hx : x < 65536) : swap16 x = (x % 256) * 256 + x / 256 := by
  unfold swap16
  have h1 : x <<< 8 = 2 ^ 8 * x := by rw [Nat.shiftLeft_eq, Nat.mul_comm]
  have h2 : x >>> 8 = x / 256 := by rw [Nat.shiftRight_eq_div_pow]
  have h3 : x / 256 < 2 ^ 8 := by omega
  rw [h1, h2, ← Nat.mul_add_lt_is_or h3]
  omega

theorem swap16_lt (x : Nat) : swap16 x < 65536 := Nat.mod_lt _ (by norm_num)

theorem swap16_swap16 (x : Nat) (hx : x < 65536) : swap16 (swap16 x) = x := by
  rw [swap16_eq (swap16 x) (swap16_lt x), swap16_eq x hx]
  omega

theorem fread16_be (ws : List Nat) (hws : ∀ w ∈ ws, w < 65536) :
    ∀ n, (fread16 n (be_bytes ws)).1 = (ws.take n).map swap16 := by
  induction ws with
  | nil =>
    intro n
    cases n <;> rfl
  | cons w ws ih =>
    intro n
    cases n with
    | zero => rfl
    | succ n =>
      have hw : w < 65536 := hws w (List.mem_cons_self _ _)
      have hrest := ih (fun v hv => hws v (List.mem_cons_of_mem _ hv)) n
      show (w / 256 % 256 + 256 * (w % 256 % 256)) :: (fread16 n (be_bytes ws)).1
        = swap16 w :: (ws.take n).map swap16
      rw [hrest, swap16_eq w hw]
      congr 1
      omega

theorem store_items_memory (ws : List Nat) :
    ∀ (p : Nat) (s : State) (a : Nat), (store_items p ws s).memory a =
      if p ≤ a ∧ a < p + ws.length then ws.getD (a - p) 0 % 65536 else s.memory a := by
  induction ws with
  | nil =>
    intro p s a
    have : ¬ (p ≤ a ∧ a < p + ([] : List Nat).length) := by
      simp only [List.length_nil]; omega
    rw [if_neg this]; rfl
  | cons w ws ih =>
    intro p s a
    show (store_items (p + 1) ws (setMem p w s)).memory a = _
    rw [ih]
    by_cases h1 : p + 1 ≤ a ∧ a < p + 1 + ws.length
    · have h2 : p ≤ a ∧ a < p + (w :: ws).length := by
        simp only [List.length_cons]; omega
      rw [if_pos h1, if_pos h2]
      have h3 : a - p = (a - (p + 1)) + 1 := by omega
      rw [h3, List.getD_cons_succ]
    · rw [if_neg h1]
      by_cases h4 : a = p
      · have h2 : p ≤ a ∧ a < p + (w :: ws).length := by
          simp only [List.length_cons]; omega
        rw [if_pos h2, h4, Nat.sub_self, List.getD_cons_zero]
        simp [setMem]
      · have h2 : ¬ (p ≤ a ∧ a < p + (w :: ws).length) := by
          simp only [List.length_cons]; omega
        rw [if_neg h2]
        simp [setMem, h4]

theorem swap_loop_memory (n : Nat) :
    ∀ (p : Nat) (s : State) (a : Nat), (swap_loop n p s).memory a =
      if p ≤ a ∧ a < p + n then swap16 (s.memory a) else s.memory a := by
  induction n with
  | zero =>
    intro p s a
    have : ¬ (p ≤ a ∧ a < p + 0) := by omega
    rw [if_neg this]; rfl
  | succ n ih =>
    intro p s a
    show (swap_loop n (p + 1) (setMem p (swap16 (s.memory p)) s)).memory a = _
    rw [ih]
    by_cases h1 : p + 1 ≤ a ∧ a < p + 1 + n
    · have h2 : p ≤ a ∧ a < p + (n + 1) := by omega
      have h4 : a ≠ p := by omega
      rw [if_pos h1, if_pos h2]
      simp [setMem, h4]
    · rw [if_neg h1]
      by_cases h4 : a = p
      · have h2 : p ≤ a ∧ a < p + (n + 1) := by omega
        rw [if_pos h2, h4]
        simp only [setMem, if_true]
        exact Nat.mod_eq_of_lt (swap16_lt _)
      · have h2 : ¬ (p ≤ a ∧ a < p + (n + 1)) := by omega
        rw [if_neg h2]
        simp [setMem, h4]

theorem store_items_frame (ws : List Nat) :
    ∀ (p : Nat) (s : State), SameOutsideMemory (store_items p ws s) s := by
  induction ws with
  | nil => intro p s; exact ⟨rfl, rfl, rfl, rfl, rfl⟩
  | cons w ws ih => intro p s; exact ih (p + 1) (setMem p w s)

theorem swap_loop_frame (n : Nat) :
    ∀ (p : Nat) (s : State), SameOutsideMemory (swap_loop n p s) s := by
  induction n with
  | zero => intro p s; exact ⟨rfl, rfl, rfl, rfl, rfl⟩
  | succ n ih => intro p s; exact ih (p + 1) (setMem p (swap16 (s.memory p)) s)

theorem getD_take_map_swap16 (ws : List Nat) (n i : Nat) (hi : i < min ws.length n)
    (hws : ∀ w ∈ ws, w < 65536) :
    swap16 (((ws.take n).map swap16).getD i 0 % 65536) = ws.getD i 0 := by
  have h1 : i < ws.length := lt_of_lt_of_le hi (Nat.min_le_left _ _)
  have h2 : i < n := lt_of_lt_of_le hi (Nat.min_le_right _ _)
  have h3 : i < ((ws.take n).map swap16).length := by
    rw [List.length_map, List.length_take, Nat.min_comm]; exact hi
  rw [List.getD_eq_getElem _ _ h3, List.getD_eq_getElem _ _ h1, List.getElem_map,
    List.getElem_take, Nat.mod_eq_of_lt (swap16_lt _)]
  exact swap16_swap16 _ (hws _ (List.getElem_mem _))

/-- What `read_image_file` does with a well-formed image: the words stored are
the first `min n (65535 - origin)` of the payload. -/
theorem read_image_file_image (O : Nat) (ws : List Nat) (s : State) (hO : O < 65536)
    (hws : ∀ w ∈ ws, w < 65536) :
    ∃ t, read_image_file (image_bytes O ws) s = some t ∧ SameOutsideMemory t s ∧
      ∀ a, t.memory a =
        if O ≤ a ∧ a < O + min ws.length (65535 - O) then ws.getD (a - O) 0
        else s.memory a := by
  have horigin : swap16 (O / 256 % 256 + 256 * (O % 256 % 256)) = O := by
    have : O / 256 % 256 + 256 * (O % 256 % 256) = swap16 O := by
      rw [swap16_eq O hO]; omega
    rw [this, swap16_swap16 O hO]
  have hmax : (UINT16_MAX - O) % 65536 = 65535 - O := by
    show (65535 - O) % 65536 = 65535 - O
    omega
  have hfile : read_image_file (image_bytes O ws) s =
      some (swap_loop ((ws.take (65535 - O)).map swap16).length O
        (store_items O ((ws.take (65535 - O)).map swap16) s)) := by
    show some (swap_loop
        (fread16 ((UINT16_MAX - swap16 (O / 256 % 256 + 256 * (O % 256 % 256))) % 65536)
          (be_bytes ws)).1.length
        (swap16 (O / 256 % 256 + 256 * (O % 256 % 256)))
        (store_items (swap16 (O / 256 % 256 + 256 * (O % 256 % 256)))
          (fread16 ((UINT16_MAX - swap16 (O / 256 % 256 + 256 * (O % 256 % 256))) % 65536)
            (be_bytes ws)).1 s)) = _
    rw [horigin, hmax, fread16_be ws hws]
  refine ⟨_, hfile, ?_, ?_⟩
  · obtain ⟨a1, a2, a3, a4, a5⟩ := swap_loop_frame ((ws.take (65535 - O)).map swap16).length O
      (store_items O ((ws.take (65535 - O)).map swap16) s)
    obtain ⟨b1, b2, b3, b4, b5⟩ := store_items_frame ((ws.take (65535 - O)).map swap16) O s
    exact ⟨a1.trans b1, a2.trans b2, a3.trans b3, a4.trans b4, a5.trans b5⟩
  · intro a
    have hlen : ((ws.take (65535 - O)).map swap16).length = min ws.length (65535 - O) := by
      rw [List.length_map, List.length_take, Nat.min_comm]
    rw [swap_loop_memory, store_items_memory, hlen]
    by_cases hr : O ≤ a ∧ a < O + min ws.length (65535 - O)
    · simp only [if_pos hr]
      exact getD_take_map_swap16 ws (65535 - O) (a - O) (by omega) hws
    · simp only [if_neg hr]

theorem serialize_eq (t : State) (ws : List Nat) (hws : ∀ w ∈ ws, w < 65536) :
    ∀ p, (∀ i, i < ws.length → t.memory (p + i) = ws.getD i 0) →
      serialize t p ws.length = be_bytes ws := by
  induction ws with
  | nil => intro p _; rfl
  | cons w ws ih =>
    intro p h
    have hw : w < 65536 := hws w (List.mem_cons_self _ _)
    have h0 : t.memory p = w := by
      have := h 0 (by simp)
      simpa using this
    have hrest : serialize t (p + 1) ws.length = be_bytes ws := by
      apply ih (fun v hv => hws v (List.mem_cons_of_mem _ hv))
      intro i hi
      have := h (i + 1) (by simpa using hi)
      rw [List.getD_cons_succ] at this
      rw [← this]
      congr 1
      omega
    show (swap16 (t.memory p) % 256) :: (swap16 (t.memory p) / 256)
        :: serialize t (p + 1) ws.length = (w / 256) :: (w % 256) :: be_bytes ws
    rw [hrest, h0, swap16_eq w hw]
    congr 1
    · omega
    · congr 1
      omega

/-- C7: for an origin `O` and a payload of `n` 16-bit words with
`n ≤ 65535 - O`, loading the big-endian byte stream of origin and payload
succeeds, leaves `mem[O + i] = w_i` for every `i < n`, leaves every memory word
outside `[O, O + n)`, every register, the run flag and the console unchanged,
and re-serialising `mem[O .. O + n)` with `swap16` gives back the payload
bytes; `swap16` is its own inverse on 16-bit words. -/
theorem image_load_round_trip (O : Nat) (ws : List Nat) (s : State) (hO : O < 65536)
    (hws : ∀ w ∈ ws, w < 65536) (hn : ws.length ≤ 65535 - O) :
    ∃ t, read_image_file (image_bytes O ws) s = some t ∧
      (∀ i (hi : i < ws.length), t.memory (O + i) = ws[i]) ∧
      (∀ a, a < O ∨ O + ws.length ≤ a → t.memory a = s.memory a) ∧
      t.regs = s.regs ∧ t.run = s.run ∧
      t.input = s.input ∧ t.keys = s.keys ∧ t.output = s.output ∧
      serialize t O ws.length = be_bytes ws ∧
      (∀ x, x < 65536 → swap16 (swap16 x) = x) := by
  obtain ⟨t, hload, ⟨f1, f2, f3, f4, f5⟩, hmem⟩ := read_image_file_image O ws s hO hws
  have hmin : min ws.length (65535 - O) = ws.length := Nat.min_eq_left hn
  have hin : ∀ i, i < ws.length → t.memory (O + i) = ws.getD i 0 := by
    intro i hi
    rw [hmem, hmin, if_pos ⟨by omega, by omega⟩]
    congr 1
    omega
  refine ⟨t, hload, ?_, ?_, f1, f2, f3, f4, f5, serialize_eq t ws hws O hin, swap16_swap16⟩
  · intro i hi
    rw [hin i hi, List.getD_eq_getElem _ _ hi]
  · intro a ha
    rw [hmem, hmin, if_neg (by omega)]

theorem image_load_round_trip_witness :
    (0x3000 < 65536 ∧ (∀ w ∈ [0x1020, 0xF025], w < 65536) ∧
      [0x1020, 0xF025].length ≤ 65535 - 0x3000) ∧
    ∃ t, read_image_file (image_bytes 0x3000 [0x1020, 0xF025]) (new_vm [] []) = some t ∧
      (∀ i (hi : i < [0x1020, 0xF025].length), t.memory (0x3000 + i) = [0x1020, 0xF025][i]) ∧
      (∀ a, a < 0x3000 ∨ 0x3000 + [0x1020, 0xF025].length ≤ a →
        t.memory a = (new_vm [] []).memory a) ∧
      t.regs = (new_vm [] []).regs ∧ t.run = (new_vm [] []).run ∧
      t.input = (new_vm [] []).input ∧ t.keys = (new_vm [] []).keys ∧
      t.output = (new_vm [] []).output ∧
      serialize t 0x3000 [0x1020, 0xF025].length = be_bytes [0x1020, 0xF025] ∧
      (∀ x, x < 65536 → swap16 (swap16 x) = x) :=
  ⟨⟨by decide, by decide, by decide⟩,
    image_load_round_trip 0x3000 [0x1020, 0xF025] (new_vm [] []) (by decide) (by decide)
      (by decide)⟩

/-- C8: the loader reads at most `UINT16_MAX - origin = 65535 - origin` words,
one fewer than the `65536 - origin` that fit.  For the image with origin 0xFFFF
and the single payload word 0x1234 (bytes FF FF 12 34) it stores nothing:
`mem[65535]` keeps its old value 0 instead of receiving 0x1234; and for the
image with origin 0xFFFE and payload 0x1111, 0x2222 only the first word is
stored. -/
theorem image_load_limit_off_by_one :
    image_bytes 0xFFFF [0x1234] = [0xFF, 0xFF, 0x12, 0x34] ∧
    (read_image_file [0xFF, 0xFF, 0x12, 0x34] (new_vm [] [])).map
      (fun t => t.memory 65535) = some 0 ∧
    (read_image_file (image_bytes 0xFFFE [0x1111, 0x2222]) (new_vm [] [])).map
      (fun t => (t.memory 65534, t.memory 65535)) = some (0x1111, 0) := by
  refine ⟨by decide, by decide, by decide⟩

/-- What the loader stores in general: for an image with origin `O` and `n`
payload words, exactly the first `min n (65535 - O)` words, at `O` onwards; the
word at address 65535 is never written. -/
theorem image_load_limit_general (O : Nat) (ws : List Nat) (s : State) (hO : O < 65536)
    (hws : ∀ w ∈ ws, w < 65536) :
    ∃ t, read_image_file (image_bytes O ws) s = some t ∧
      (∀ a, t.memory a =
        if O ≤ a ∧ a < O + min ws.length (65535 - O) then ws.getD (a - O) 0
        else s.memory a) ∧
      t.memory 65535 = s.memory 65535 := by
  obtain ⟨t, hload, _, hmem⟩ := read_image_file_image O ws s hO hws
  refine ⟨t, hload, hmem, ?_⟩
  rw [hmem, if_neg (by omega)]

/-! ## HALT -/

theorem loop_halted (n : Nat) (u : State) (h : u.run = false) : loop n u = .ok u := by
  cases n with
  | zero => rfl
  | succ n => simp [loop, h]

theorem TRAP_HALT_eq (instr : Nat) (s : State) (hv : instr &&& 0xFF = TRAP_HALT) :
    TRAP instr s = .ok { s with output := s.output ++ halt_text, run := false } := by
  simp [TRAP, hv]

/-- C9: in a Running state whose fetched word has opcode 15 and trap vector
`instr[7:0] = 0x25`, the step returns without fault with the run flag cleared,
so the loop ends there for every bound on its iterations and fetches no further
instruction; the step leaves R0-R7, COND and memory unchanged and PC equal to
the incremented PC; and from any Halted state the loop takes no step. -/
theorem HALT_terminates (s : State) (hrun : s.run = true)
    (hop : s.memory (s.regs R_PC) >>> 12 = OP_TRAP)
    (hv : s.memory (s.regs R_PC) &&& 0xFF = TRAP_HALT) :
    ∃ t, step s = .ok t ∧ t.run = false ∧
      (∀ n, loop (n + 1) s = .ok t) ∧
      (∀ i, i ≤ 7 → t.regs i = s.regs i) ∧
      t.regs R_COND = s.regs R_COND ∧
      t.memory = s.memory ∧
      t.regs R_PC = (s.regs R_PC + 1) % 65536 ∧
      t.input = s.input ∧ t.keys = s.keys ∧
      t.output = s.output ++ halt_text ∧
      (∀ (u : State) (n : Nat), u.run = false → loop n u = .ok u) := by
  have hstep : step s = .ok { setReg R_PC (s.regs R_PC + 1) s with
      output := s.output ++ halt_text, run := false } := by
    show dispatch (s.memory (s.regs R_PC)) (setReg R_PC (s.regs R_PC + 1) s) = _
    rw [dispatch_TRAP _ _ hop, TRAP_HALT_eq _ _ hv]
    rfl
  refine ⟨_, hstep, rfl, ?_, ?_, ?_, rfl, ?_, rfl, rfl, rfl, fun u n h => loop_halted n u h⟩
  · intro n
    have hl : loop (n + 1) s = (if s.run = true then
        (match step s with
          | .ok t => loop n t
          | .error e => .error e)
      else .ok s) := rfl
    rw [hl, if_pos hrun, hstep]
    exact loop_halted n _ rfl
  · intro i hi
    show (setReg R_PC (s.regs R_PC + 1) s).regs i = s.regs i
    exact setReg_other _ _ _ _ (by simp only [R_PC]; omega)
  · show (setReg R_PC (s.regs R_PC + 1) s).regs R_COND = s.regs R_COND
    exact setReg_other _ _ _ _ (by decide)
  · show (setReg R_PC (s.regs R_PC + 1) s).regs R_PC = _
    exact setReg_same _ _ _

theorem HALT_terminates_witness :
    (halt_state.run = true ∧
      halt_state.memory (halt_state.regs R_PC) >>> 12 = OP_TRAP ∧
      halt_state.memory (halt_state.regs R_PC) &&& 0xFF = TRAP_HALT) ∧
    ∃ t, step halt_state = .ok t ∧ t.run = false ∧
      (∀ n, loop (n + 1) halt_state = .ok t) ∧
      (∀ i, i ≤ 7 → t.regs i = halt_state.regs i) ∧
      t.regs R_COND = halt_state.regs R_COND ∧
      t.memory = halt_state.memory ∧
      t.regs R_PC = (halt_state.regs R_PC + 1) % 65536 ∧
      t.input = halt_state.input ∧ t.keys = halt_state.keys ∧
      t.output = halt_state.output ++ halt_text ∧
      (∀ (u : State) (n : Nat), u.run = false → loop n u = .ok u) :=
  ⟨⟨by decide, by decide, by decide⟩,
    HALT_terminates halt_state (by decide) (by decide) (by decide)⟩

/-! ## End-to-end scenario 1 -/

theorem loop_succ_running (n : Nat) (s t : State) (hrun : s.run = true)
    (hstep : step s = .ok t) : loop (n + 1) s = loop n t := by
  have hl : loop (n + 1) s = (if s.run = true then
      (match step s with
        | .ok t => loop n t
        | .error e => .error e)
    else .ok s) := rfl
  rw [hl, if_pos hrun, hstep]

theorem step_eq (s : State) :
    step s = dispatch (s.memory (s.regs R_PC)) (setReg R_PC (s.regs R_PC + 1) s) := rfl

theorem update_flags_frame (r : Nat) (s : State) :
    (update_flags r s).memory = s.memory ∧ SameOutsideMemory (update_flags r s) (setReg R_COND
      ((update_flags r s).regs R_COND) s) := by
  unfold update_flags
  split
  · exact ⟨rfl, rfl, rfl, rfl, rfl, rfl⟩
  · split
    · exact ⟨rfl, rfl, rfl, rfl, rfl, rfl⟩
    · exact ⟨rfl, rfl, rfl, rfl, rfl, rfl⟩

/-- The handler ADD touches `regs[dr]` and COND only. -/
theorem ADD_frame (instr : Nat) (s : State) :
    (ADD instr s).memory = s.memory ∧ (ADD instr s).run = s.run ∧
    (ADD instr s).input = s.input ∧ (ADD instr s).keys = s.keys ∧
    (ADD instr s).output = s.output ∧
    ∀ i, i ≠ (instr >>> 9) &&& 0x7 → i ≠ R_COND → (ADD instr s).regs i = s.regs i := by
  have key : ∀ v, (update_flags ((instr >>> 9) &&& 0x7)
        (setReg ((instr >>> 9) &&& 0x7) v s)).memory = s.memory ∧
      (update_flags ((instr >>> 9) &&& 0x7) (setReg ((instr >>> 9) &&& 0x7) v s)).run = s.run ∧
      (update_flags ((instr >>> 9) &&& 0x7) (setReg ((instr >>> 9) &&& 0x7) v s)).input
        = s.input ∧
      (update_flags ((instr >>> 9) &&& 0x7) (setReg ((instr >>> 9) &&& 0x7) v s)).keys
        = s.keys ∧
      (update_flags ((instr >>> 9) &&& 0x7) (setReg ((instr >>> 9) &&& 0x7) v s)).output
        = s.output ∧
      ∀ i, i ≠ (instr >>> 9) &&& 0x7 → i ≠ R_COND →
        (update_flags ((instr >>> 9) &&& 0x7) (setReg ((instr >>> 9) &&& 0x7) v s)).regs i
          = s.regs i := by
    intro v
    obtain ⟨hm, _, h2, h3, h4, h5⟩ :=
      update_flags_frame ((instr >>> 9) &&& 0x7) (setReg ((instr >>> 9) &&& 0x7) v s)
    refine ⟨hm, h2, h3, h4, h5, fun i hi hc => ?_⟩
    rw [update_flags_other _ _ _ hc, setReg_other _ _ _ _ hi]
  unfold ADD
  simp only []
  split
  · exact key _
  · exact key _

/-- C10: for any console, loading the bytes 30 00 10 20 F0 25 into a zeroed
machine puts `ADD R0,R0,#0` at 0x3000 and `TRAP 0x25` at 0x3001; `execute` then
runs exactly two instructions: after the first the machine is still Running
with PC = 0x3001, after the second it is Halted with R0 = 0, COND = FL_ZRO and
PC = 0x3002, and that is the result for every bound of at least two
iterations. -/
theorem scenario1_halts (input : List Nat) (keys : List Bool) :
    ∃ m t1 t2, read_image_file scenario1_bytes (new_vm input keys) = some m ∧
      m.memory 0x3000 = 0x1020 ∧ m.memory 0x3001 = 0xF025 ∧
      step (execute_init m) = .ok t1 ∧ t1.run = true ∧ t1.regs R_PC = 0x3001 ∧
      step t1 = .ok t2 ∧ t2.run = false ∧
      t2.regs R_R0 = 0 ∧ t2.regs R_COND = FL_ZRO ∧ t2.regs R_PC = 0x3002 ∧
      execute 1 m = .ok t1 ∧ (∀ n, execute (n + 2) m = .ok t2) := by
  obtain ⟨m, hload, ⟨hregs, hrun, _, _, _⟩, hmem⟩ :=
    read_image_file_image 0x3000 [0x1020, 0xF025] (new_vm input keys) (by decide) (by decide)
  have hm0 : m.memory 0x3000 = 0x1020 := by rw [hmem]; rfl
  have hm1 : m.memory 0x3001 = 0xF025 := by rw [hmem]; rfl
  have hr0 : m.regs 0 = 0 := by rw [hregs]; rfl
  have hmrun : (execute_init m).run = true := by
    show m.run = true
    rw [hrun]; rfl
  -- the first instruction: ADD R0,R0,#0
  have hpc0 : (execute_init m).regs R_PC = 0x3000 := rfl
  have hstep1 : step (execute_init m)
      = .ok (ADD 0x1020 (setReg R_PC 0x3001 (execute_init m))) := by
    rw [step_eq, hpc0]
    have : (execute_init m).memory 0x3000 = 0x1020 := hm0
    rw [this]
    exact dispatch_ADD _ _ (by decide)
  obtain ⟨am, ar, _, _, _, aregs⟩ := ADD_frame 0x1020 (setReg R_PC 0x3001 (execute_init m))
  have hpc1 : (ADD 0x1020 (setReg R_PC 0x3001 (execute_init m))).regs R_PC = 0x3001 := by
    rw [aregs R_PC (by decide) (by decide)]; rfl
  have hrun1 : (ADD 0x1020 (setReg R_PC 0x3001 (execute_init m))).run = true := by
    rw [ar]; exact hmrun
  have hr1 : (ADD 0x1020 (setReg R_PC 0x3001 (execute_init m))).regs 0 = 0 := by
    have h := ADD_reg 0x1020 (setReg R_PC 0x3001 (execute_init m))
    have e1 : (0x1020 >>> 9) &&& 0x7 = 0 := by decide
    have e2 : (0x1020 >>> 6) &&& 0x7 = 0 := by decide
    have e3 : operand 0x1020 (setReg R_PC 0x3001 (execute_init m)) = 0 := rfl
    have e4 : (setReg R_PC 0x3001 (execute_init m)).regs 0 = 0 := hr0
    rw [e1, e2, e3, e4] at h
    exact h
  have hc1 : (ADD 0x1020 (setReg R_PC 0x3001 (execute_init m))).regs R_COND = FL_ZRO := by
    obtain ⟨v, s1, hd⟩ := flag_setting_shape 0x1020 (setReg R_PC 0x3001 (execute_init m))
      (by decide)
    rw [dispatch_ADD _ _ (by decide)] at hd
    have hd2 := Except.ok.inj hd
    have h := update_flags_setReg (dr_field 0x1020) v s1 (field3_le _)
    rw [← hd2] at h
    have e1 : dr_field 0x1020 = 0 := by decide
    rw [e1, hr1] at h
    exact (h.2.2.1).mpr h.1.symm
  -- the second instruction: TRAP 0x25
  have hmem1 : (ADD 0x1020 (setReg R_PC 0x3001 (execute_init m))).memory 0x3001 = 0xF025 := by
    rw [am]; exact hm1
  have hstep2 : step (ADD 0x1020 (setReg R_PC 0x3001 (execute_init m)))
      = .ok { setReg R_PC 0x3002 (ADD 0x1020 (setReg R_PC 0x3001 (execute_init m))) with
          output := (ADD 0x1020 (setReg R_PC 0x3001 (execute_init m))).output ++ halt_text,
          run := false } := by
    rw [step_eq, hpc1, hmem1, dispatch_TRAP _ _ (by decide), TRAP_HALT_eq _ _ (by decide)]
    rfl
  refine ⟨m, _, _, hload, hm0, hm1, hstep1, hrun1, hpc1, hstep2, rfl, ?_, ?_, rfl, ?_, ?_⟩
  · show (setReg R_PC 0x3002 (ADD 0x1020 (setReg R_PC 0x3001 (execute_init m)))).regs R_R0 = 0
    rw [setReg_other _ _ _ _ (by decide)]; exact hr1
  · show (setReg R_PC 0x3002 (ADD 0x1020 (setReg R_PC 0x3001 (execute_init m)))).regs R_COND
      = FL_ZRO
    rw [setReg_other _ _ _ _ (by decide)]; exact hc1
  · show loop 1 (execute_init m) = _
    rw [loop_succ_running 0 _ _ hmrun hstep1]
    rfl
  · intro n
    show loop (n + 2) (execute_init m) = _
    rw [loop_succ_running (n + 1) _ _ hmrun hstep1, loop_succ_running n _ _ hrun1 hstep2]
    exact loop_halted n _ rfl

/-! ## Illegal instructions -/

theorem puts_loop_not_abort (s : State) (left : Nat) :
    ∀ (c : Nat) (out : List Nat), puts_loop s left c out ≠ .error Fault.abort := by
  induction left with
  | zero => intro c out h; cases h
  | succ n ih =>
    intro c out
    unfold puts_loop
    split
    · intro h; cases h
    · exact ih _ _

theorem putsp_loop_not_abort (s : State) (left : Nat) :
    ∀ (c : Nat) (out : List Nat), putsp_loop s left c out ≠ .error Fault.abort := by
  induction left with
  | zero => intro c out h; cases h
  | succ n ih =>
    intro c out
    unfold putsp_loop
    simp only []
    split
    · intro h; cases h
    · split
      · exact ih _ _
      · exact ih _ _

theorem TRAP_not_abort (instr : Nat) (s : State) : TRAP instr s ≠ .error Fault.abort := by
  intro h
  unfold TRAP at h
  simp only [] at h
  split_ifs at h
  · have hp := puts_loop_not_abort s (MEMORY_MAX - s.regs R_R0) (s.regs R_R0) []
    split at h
    · cases h
    · next e he => cases h; exact hp he
  · have hp := putsp_loop_not_abort s (MEMORY_MAX - s.regs R_R0) (s.regs R_R0) []
    split at h
    · cases h
    · next e he => cases h; exact hp he

theorem dispatch_abort_iff (instr : Nat) (s : State) :
    dispatch instr s = .error Fault.abort ↔ (instr >>> 12 = OP_RTI ∨ instr >>> 12 = OP_RES) := by
  constructor
  · intro h
    rcases Nat.lt_or_ge (instr >>> 12) 16 with hlt | hge
    · generalize hop : instr >>> 12 = op at hlt
      interval_cases op
      · rw [dispatch_BR _ _ hop] at h; cases h
      · rw [dispatch_ADD _ _ hop] at h; cases h
      · rw [dispatch_LD _ _ hop] at h; cases h
      · rw [dispatch_ST _ _ hop] at h; cases h
      · rw [dispatch_JSR _ _ hop] at h; cases h
      · rw [dispatch_AND _ _ hop] at h; cases h
      · rw [dispatch_LDR _ _ hop] at h; cases h
      · rw [dispatch_STR _ _ hop] at h; cases h
      · left; rfl
      · rw [dispatch_NOT _ _ hop] at h; cases h
      · rw [dispatch_LDI _ _ hop] at h; cases h
      · rw [dispatch_STI _ _ hop] at h; cases h
      · rw [dispatch_JMP _ _ hop] at h; cases h
      · right; rfl
      · rw [dispatch_LEA _ _ hop] at h; cases h
      · rw [dispatch_TRAP _ _ hop] at h; exact absurd h (TRAP_not_abort _ _)
    · rw [dispatch_none _ _ hge] at h; cases h
  · rintro (h | h)
    · exact dispatch_RTI _ _ h
    · exact dispatch_RES _ _ h

/-- C11: in a Running state the step ends in the fatal fault `abort` if and only
if the opcode `instr[15:12]` of the fetched word is 8 (RTI) or 13 (RES), and
then the loop ends in that fault; for each of the other fourteen opcodes the
step is the result of exactly the one handler of that opcode, which is a state
for the thirteen plain handlers and never the abort fault for TRAP. -/
theorem illegal_instruction (s : State) (hrun : s.run = true) :
    (step s = .error Fault.abort ↔
      ((fetch s).1 >>> 12 = OP_RTI ∨ (fetch s).1 >>> 12 = OP_RES)) ∧
    (((fetch s).1 >>> 12 = OP_RTI ∨ (fetch s).1 >>> 12 = OP_RES) →
      ∀ n, loop (n + 1) s = .error Fault.abort) ∧
    ((fetch s).1 >>> 12 = OP_BR → step s = .ok (BR (fetch s).1 (fetch s).2)) ∧
    ((fetch s).1 >>> 12 = OP_ADD → step s = .ok (ADD (fetch s).1 (fetch s).2)) ∧
    ((fetch s).1 >>> 12 = OP_LD → step s = .ok (LD (fetch s).1 (fetch s).2)) ∧
    ((fetch s).1 >>> 12 = OP_ST → step s = .ok (ST (fetch s).1 (fetch s).2)) ∧
    ((fetch s).1 >>> 12 = OP_JSR → step s = .ok (JSR (fetch s).1 (fetch s).2)) ∧
    ((fetch s).1 >>> 12 = OP_AND → step s = .ok (AND (fetch s).1 (fetch s).2)) ∧
    ((fetch s).1 >>> 12 = OP_LDR → step s = .ok (LDR (fetch s).1 (fetch s).2)) ∧
    ((fetch s).1 >>> 12 = OP_STR → step s = .ok (STR (fetch s).1 (fetch s).2)) ∧
    ((fetch s).1 >>> 12 = OP_NOT → step s = .ok (NOT (fetch s).1 (fetch s).2)) ∧
    ((fetch s).1 >>> 12 = OP_LDI → step s = .ok (LDI (fetch s).1 (fetch s).2)) ∧
    ((fetch s).1 >>> 12 = OP_STI → step s = .ok (STI (fetch s).1 (fetch s).2)) ∧
    ((fetch s).1 >>> 12 = OP_JMP → step s = .ok (JMP (fetch s).1 (fetch s).2)) ∧
    ((fetch s).1 >>> 12 = OP_LEA → step s = .ok (LEA (fetch s).1 (fetch s).2)) ∧
    ((fetch s).1 >>> 12 = OP_TRAP →
      step s = TRAP (fetch s).1 (fetch s).2 ∧ step s ≠ .error Fault.abort) := by
  have hs : step s = dispatch (fetch s).1 (fetch s).2 := rfl
  refine ⟨?_, ?_, ?_, ?_, ?_, ?_, ?_, ?_, ?_, ?_, ?_, ?_, ?_, ?_, ?_, ?_⟩
  · rw [hs]; exact dispatch_abort_iff _ _
  · intro h n
    have hab : step s = .error Fault.abort := by
      rw [hs]; exact (dispatch_abort_iff _ _).mpr h
    have hl : loop (n + 1) s = (if s.run = true then
        (match step s with
          | .ok t => loop n t
          | .error e => .error e)
      else .ok s) := rfl
    rw [hl, if_pos hrun, hab]
  · intro h; rw [hs]; exact dispatch_BR _ _ h
  · intro h; rw [hs]; exact dispatch_ADD _ _ h
  · intro h; rw [hs]; exact dispatch_LD _ _ h
  · intro h; rw [hs]; exact dispatch_ST _ _ h
  · intro h; rw [hs]; exact dispatch_JSR _ _ h
  · intro h; rw [hs]; exact dispatch_AND _ _ h
  · intro h; rw [hs]; exact dispatch_LDR _ _ h
  · intro h; rw [hs]; exact dispatch_STR _ _ h
  · intro h; rw [hs]; exact dispatch_NOT _ _ h
  · intro h; rw [hs]; exact dispatch_LDI _ _ h
  · intro h; rw [hs]; exact dispatch_STI _ _ h
  · intro h; rw [hs]; exact dispatch_JMP _ _ h
  · intro h; rw [hs]; exact dispatch_LEA _ _ h
  · intro h
    rw [hs, dispatch_TRAP _ _ h]
    exact ⟨rfl, TRAP_not_abort _ _⟩

theorem illegal_instruction_witness :
    rti_state.run = true ∧ step rti_state = .error Fault.abort ∧
    (fetch rti_state).1 >>> 12 = OP_RTI ∧
    (∀ n, loop (n + 1) rti_state = .error Fault.abort) :=
  have h := illegal_instruction rti_state (by decide)
  have hop : (fetch rti_state).1 >>> 12 = OP_RTI := by decide
  ⟨by decide, h.1.mpr (Or.inl hop), hop, h.2.1 (Or.inl hop)⟩

/-! ## Which instructions leave COND alone -/

theorem fetch_cond (s : State) : (fetch s).2.regs R_COND = s.regs R_COND :=
  setReg_other _ _ _ _ (by decide)

theorem TRAP_cond_frame (instr : Nat) (s t : State) (hv : instr &&& 0xFF ≠ TRAP_IN)
    (h : TRAP instr s = .ok t) : t.regs R_COND = s.regs R_COND := by
  unfold TRAP at h
  simp only [] at h
  split_ifs at h
  · cases h
    rw [setReg_other _ _ _ _ (by decide), getchar_regs]
  · cases h; rfl
  · split at h
    · cases h; rfl
    · cases h
  · split at h
    · cases h; rfl
    · cases h
  · cases h; rfl
  · cases h; rfl

theorem plain_cond_frame (instr : Nat) (s : State)
    (hop : instr >>> 12 ∈ [OP_BR, OP_ST, OP_JSR, OP_STR, OP_STI, OP_JMP]) :
    ∃ t, dispatch instr s = .ok t ∧ t.regs R_COND = s.regs R_COND := by
  simp only [List.mem_cons, List.mem_singleton, List.not_mem_nil, or_false] at hop
  rcases hop with h | h | h | h | h | h
  · refine ⟨_, dispatch_BR _ _ h, ?_⟩
    unfold BR; simp only []; split
    · exact setReg_other _ _ _ _ (by decide)
    · rfl
  · exact ⟨_, dispatch_ST _ _ h, rfl⟩
  · refine ⟨_, dispatch_JSR _ _ h, ?_⟩
    unfold JSR; simp only []; split
    · rw [setReg_other _ _ _ _ (by decide), setReg_other _ _ _ _ (by decide)]
    · rw [setReg_other _ _ _ _ (by decide), setReg_other _ _ _ _ (by decide)]
  · exact ⟨_, dispatch_STR _ _ h, rfl⟩
  · refine ⟨_, dispatch_STI _ _ h, ?_⟩
    show (mem_write _ _ (mem_read _ s).2).regs R_COND = s.regs R_COND
    rw [mem_write_regs, mem_read_regs]
  · exact ⟨_, dispatch_JMP _ _ h, setReg_other _ _ _ _ (by decide)⟩

/-- C12, as stated, fails for the trap IN: from a state with COND = FL_ZRO whose
next word is `TRAP 0x23`, with the character 'A' waiting, the step stores 65 in
R0 and calls `update_flags(R_R0)`, leaving COND = FL_POS. -/
theorem TRAP_IN_changes_cond :
    (fetch trap_in_state).1 = 0xF023 ∧
    (fetch trap_in_state).1 >>> 12 = OP_TRAP ∧
    trap_in_state.regs R_COND = FL_ZRO ∧
    ∃ t, step trap_in_state = .ok t ∧ t.regs R_R0 = 65 ∧ t.regs R_COND = FL_POS ∧
      t.regs R_COND ≠ trap_in_state.regs R_COND :=
  ⟨by decide, by decide, by decide, _, rfl, by decide, by decide, by decide⟩

theorem TRAP_ok (instr : Nat) (s : State) (h1 : instr &&& 0xFF ≠ TRAP_PUTS)
    (h2 : instr &&& 0xFF ≠ TRAP_PUTSP) : ∃ t, TRAP instr s = .ok t := by
  unfold TRAP
  simp only []
  split_ifs
  · exact ⟨_, rfl⟩
  · exact ⟨_, rfl⟩
  · exact ⟨_, rfl⟩
  · exact ⟨_, rfl⟩
  · exact ⟨_, rfl⟩

/-- C12, amended: for every state and console and every fetched instruction
word whose opcode is BR, ST, JSR/JSRR, STR, STI, JMP or TRAP with any vector
other than IN (0x23), COND after the step equals COND before it; the step
returns a state for the six plain opcodes and for every trap vector other than
PUTS and PUTSP. -/
theorem cond_frame (s : State)
    (hop : (fetch s).1 >>> 12 ∈ [OP_BR, OP_ST, OP_JSR, OP_STR, OP_STI, OP_JMP, OP_TRAP])
    (hin : (fetch s).1 >>> 12 = OP_TRAP → (fetch s).1 &&& 0xFF ≠ TRAP_IN) :
    (∀ t, step s = .ok t → t.regs R_COND = s.regs R_COND) ∧
    (((fetch s).1 >>> 12 ≠ OP_TRAP ∨
        ((fetch s).1 &&& 0xFF ≠ TRAP_PUTS ∧ (fetch s).1 &&& 0xFF ≠ TRAP_PUTSP)) →
      ∃ t, step s = .ok t) := by
  have hs : step s = dispatch (fetch s).1 (fetch s).2 := rfl
  by_cases ht : (fetch s).1 >>> 12 = OP_TRAP
  · constructor
    · intro t h
      rw [hs, dispatch_TRAP _ _ ht] at h
      rw [TRAP_cond_frame _ _ _ (hin ht) h, fetch_cond]
    · rintro (h | ⟨h1, h2⟩)
      · exact absurd ht h
      · rw [hs, dispatch_TRAP _ _ ht]
        exact TRAP_ok _ _ h1 h2
  · have hop6 : (fetch s).1 >>> 12 ∈ [OP_BR, OP_ST, OP_JSR, OP_STR, OP_STI, OP_JMP] := by
      simp only [List.mem_cons, List.mem_singleton, List.not_mem_nil, or_false] at hop ⊢
      tauto
    obtain ⟨u, hu, hc⟩ := plain_cond_frame (fetch s).1 (fetch s).2 hop6
    constructor
    · intro t h
      rw [hs, hu] at h
      cases h
      rw [hc, fetch_cond]
    · intro _
      exact ⟨u, by rw [hs, hu]⟩

theorem cond_frame_witness :
    ((fetch trap_out_state).1 >>> 12
        ∈ [OP_BR, OP_ST, OP_JSR, OP_STR, OP_STI, OP_JMP, OP_TRAP] ∧
      ((fetch trap_out_state).1 >>> 12 = OP_TRAP →
        (fetch trap_out_state).1 &&& 0xFF ≠ TRAP_IN)) ∧
    (∀ t, step trap_out_state = .ok t → t.regs R_COND = trap_out_state.regs R_COND) ∧
    (((fetch trap_out_state).1 >>> 12 ≠ OP_TRAP ∨
        ((fetch trap_out_state).1 &&& 0xFF ≠ TRAP_PUTS ∧
          (fetch trap_out_state).1 &&& 0xFF ≠ TRAP_PUTSP)) →
      ∃ t, step trap_out_state = .ok t) :=
  ⟨⟨by decide, fun _ => by decide⟩,
    cond_frame trap_out_state (by decide) (fun _ => by decide)⟩

/-! ## The memory read contract -/

theorem check_key_cons (s : State) (k : Bool) (ks : List Bool) (h : s.keys = k :: ks) :
    check_key s = (k, { s with keys := ks }) := by
  unfold check_key
  rw [h]

theorem check_key_nil (s : State) (h : s.keys = []) : check_key s = (false, s) := by
  unfold check_key
  rw [h]

theorem getchar_cons (s : State) (c : Nat) (rest : List Nat) (h : s.input = c :: rest) :
    getchar s = (((c % 256 : Nat) : Int), { s with input := rest }) := by
  unfold getchar
  rw [h]

theorem to_uint16_byte (c : Nat) (hc : c < 256) : to_uint16 ((c % 256 : Nat) : Int) = c := by
  unfold to_uint16
  omega

/-- A read of the status register when the poll reports a key and `getchar`
delivers `c`. -/
theorem mem_read_kbsr_ready (s : State) (c : Nat) (rest : List Nat) (ks : List Bool)
    (hk : s.keys = true :: ks) (hi : s.input = c :: rest) :
    mem_read MR_KBSR s =
      (1 <<< 15, setMem MR_KBDR (to_uint16 ((c % 256 : Nat) : Int))
        { setMem MR_KBSR (1 <<< 15) { s with keys := ks } with input := rest }) := by
  have hg : getchar (setMem MR_KBSR (1 <<< 15) { s with keys := ks })
      = (((c % 256 : Nat) : Int),
          { setMem MR_KBSR (1 <<< 15) { s with keys := ks } with input := rest }) :=
    getchar_cons _ c rest hi
  unfold mem_read
  simp only []
  rw [if_pos (by decide), check_key_cons s true ks hk]
  simp only [if_true]
  rw [hg]
  rfl

/-- A read of the status register when the poll reports no key. -/
theorem mem_read_kbsr_idle (s : State) (h : (check_key s).1 = false) :
    mem_read MR_KBSR s = (0, setMem MR_KBSR 0 (check_key s).2) := by
  unfold mem_read
  simp only []
  rw [if_pos (by decide), h]
  rfl

theorem setMem_same (a v : Nat) (s : State) : (setMem a v s).memory a = v % 65536 := by
  simp [setMem]

theorem setMem_other (a v i : Nat) (s : State) (h : i ≠ a) :
    (setMem a v s).memory i = s.memory i := by
  simp [setMem, h]

theorem check_key_true (s : State) (h : (check_key s).1 = true) :
    ∃ ks, s.keys = true :: ks := by
  cases hk : s.keys with
  | nil =>
    rw [check_key_nil s hk] at h
    cases h
  | cons k ks =>
    rw [check_key_cons s k ks hk] at h
    exact ⟨ks, by rw [show k = true from h]⟩

theorem getchar_nil (s : State) (h : s.input = []) : getchar s = (-1, s) := by
  unfold getchar
  rw [h]

/-- A read of the status register when the poll reports stdin readable and the
input is at end of file: `getchar` returns `EOF`. -/
theorem mem_read_kbsr_eof (s : State) (ks : List Bool)
    (hk : s.keys = true :: ks) (hi : s.input = []) :
    mem_read MR_KBSR s =
      (1 <<< 15, setMem MR_KBDR (to_uint16 (-1))
        (setMem MR_KBSR (1 <<< 15) { s with keys := ks })) := by
  have hg : getchar (setMem MR_KBSR (1 <<< 15) { s with keys := ks })
      = (-1, setMem MR_KBSR (1 <<< 15) { s with keys := ks }) :=
    getchar_nil _ hi
  unfold mem_read
  simp only []
  rw [if_pos (by decide), check_key_cons s true ks hk]
  simp only [if_true]
  rw [hg]
  rfl

/-- C13, as stated, fails at end of file: the input is empty, so no character
is available, yet the poll reports stdin readable, and the read of 0xFE00
returns 0x8000, sets the status word to 0x8000 and stores 0xFFFF (the `EOF`
that `getchar` returned) in the data register, where the claim has status 0,
the data register unchanged and the result 0. -/
theorem KBSR_read_at_end_of_file :
    key_eof_state.input = [] ∧ (check_key key_eof_state).1 = true ∧
    key_eof_state.memory MR_KBDR = 0 ∧
    (mem_read MR_KBSR key_eof_state).1 = 0x8000 ∧
    (mem_read MR_KBSR key_eof_state).2.memory MR_KBSR = 0x8000 ∧
    (mem_read MR_KBSR key_eof_state).2.memory MR_KBDR = 0xFFFF ∧
    (mem_read MR_KBSR key_eof_state).1 ≠ 0 ∧
    (mem_read MR_KBSR key_eof_state).2.memory MR_KBSR ≠ 0 ∧
    (mem_read MR_KBSR key_eof_state).2.memory MR_KBDR ≠ key_eof_state.memory MR_KBDR := by
  refine ⟨rfl, by decide, by decide, by decide, by decide, by decide, by decide, by decide,
    by decide⟩

/-- C13, amended: with the console explicit as the poll and the character
stream, a read of any address `a` other than the status address 0xFE00 returns
`mem[a]` and changes nothing (no memory word, no input consumed).  A read of
0xFE00 when the poll reports the input readable returns 0x8000 and sets the
status word to 0x8000; it sets the data register to the next character `c`
zero-extended and consumes it, or to 0xFFFF when the input is at end of file.
When the poll reports the input not readable the read returns 0, clears the
status word and leaves the data register and the input unchanged.  In every
case no memory word other than the status and data registers changes, and no
register changes. -/
theorem mem_read_poll_contract (s : State) :
    (∀ a, a < 65536 → a ≠ MR_KBSR → mem_read a s = (s.memory a, s)) ∧
    ((check_key s).1 = true →
      (mem_read MR_KBSR s).1 = 0x8000 ∧
      (mem_read MR_KBSR s).2.memory MR_KBSR = 0x8000 ∧
      (∀ c rest, c < 256 → s.input = c :: rest →
        (mem_read MR_KBSR s).2.memory MR_KBDR = c ∧ (mem_read MR_KBSR s).2.input = rest) ∧
      (s.input = [] →
        (mem_read MR_KBSR s).2.memory MR_KBDR = 0xFFFF ∧ (mem_read MR_KBSR s).2.input = []) ∧
      (∀ b, b ≠ MR_KBSR → b ≠ MR_KBDR → (mem_read MR_KBSR s).2.memory b = s.memory b) ∧
      (mem_read MR_KBSR s).2.regs = s.regs) ∧
    ((check_key s).1 = false →
      (mem_read MR_KBSR s).1 = 0 ∧
      (mem_read MR_KBSR s).2.memory MR_KBSR = 0 ∧
      (mem_read MR_KBSR s).2.memory MR_KBDR = s.memory MR_KBDR ∧
      (∀ b, b ≠ MR_KBSR → (mem_read MR_KBSR s).2.memory b = s.memory b) ∧
      (mem_read MR_KBSR s).2.input = s.input ∧
      (mem_read MR_KBSR s).2.regs = s.regs) := by
  refine ⟨?_, ?_, ?_⟩
  · intro a ha hne
    have hm : a % 65536 = a := Nat.mod_eq_of_lt ha
    rw [mem_read_plain a s (by rw [hm]; exact hne), hm]
  · intro h
    obtain ⟨ks, hk⟩ := check_key_true s h
    have hothers : ∀ (v b : Nat) (u : State), u.memory = s.memory → b ≠ MR_KBSR →
        b ≠ MR_KBDR → (setMem MR_KBDR v (setMem MR_KBSR (1 <<< 15) u)).memory b
          = s.memory b := by
      intro v b u hu h1 h2
      rw [setMem_other _ _ _ _ h2, setMem_other _ _ _ _ h1, hu]
    cases hin : s.input with
    | nil =>
      rw [mem_read_kbsr_eof s ks hk hin]
      refine ⟨rfl, rfl, ?_, ?_, ?_, rfl⟩
      · intro c rest _ he
        cases he
      · intro _
        refine ⟨?_, hin⟩
        simp only []
        rw [setMem_same]
        decide
      · intro b h1 h2
        exact hothers _ b _ rfl h1 h2
    | cons c rest =>
      rw [mem_read_kbsr_ready s c rest ks hk hin]
      refine ⟨rfl, rfl, ?_, ?_, ?_, rfl⟩
      · intro c2 rest2 hc he
        cases he
        refine ⟨?_, rfl⟩
        simp only []
        rw [setMem_same, to_uint16_byte c hc]
        exact Nat.mod_eq_of_lt (by omega)
      · intro he
        cases he
      · intro b h1 h2
        simp only []
        rw [setMem_other _ _ _ _ h2]
        exact setMem_other _ _ _ _ h1
  · intro h
    rw [mem_read_kbsr_idle s h]
    have hmem : ∀ b, b ≠ MR_KBSR → (setMem MR_KBSR 0 (check_key s).2).memory b = s.memory b := by
      intro b h1
      rw [setMem_other _ _ _ _ h1, check_key_memory]
    refine ⟨rfl, rfl, hmem MR_KBDR (by decide), hmem, ?_, ?_⟩
    · show (check_key s).2.input = s.input
      unfold check_key; split <;> rfl
    · exact check_key_regs s

theorem mem_read_poll_contract_witness :
    (check_key key_ready_state).1 = true ∧
    (65 < 256 ∧ key_ready_state.input = 65 :: []) ∧
    (mem_read MR_KBSR key_ready_state).1 = 0x8000 ∧
    (mem_read MR_KBSR key_ready_state).2.memory MR_KBSR = 0x8000 ∧
    (mem_read MR_KBSR key_ready_state).2.memory MR_KBDR = 65 ∧
    (mem_read MR_KBSR key_ready_state).2.input = [] :=
  have h := (mem_read_poll_contract key_ready_state).2.1 (by decide)
  ⟨by decide, ⟨by decide, rfl⟩, h.1, h.2.1, h.2.2.1 65 [] (by decide) rfl⟩

/-! ## The device register layout -/

/-- C14, as stated, fails: `MR_KBDR` is 0xFE02, not `MR_KBSR + 1 = 0xFE01`, and
after a successful poll that delivers 'A' (65) the word at address status + 1
still holds its old value 0, not the character. -/
theorem KBDR_not_next_address :
    MR_KBDR ≠ MR_KBSR + 1 ∧
    key_ready_state.keys = [true] ∧ key_ready_state.input = [65] ∧
    (mem_read MR_KBSR key_ready_state).1 = 0x8000 ∧
    (mem_read MR_KBSR key_ready_state).2.memory (MR_KBSR + 1) = 0 ∧
    (mem_read (MR_KBSR + 1) (mem_read MR_KBSR key_ready_state).2).1 = 0 ∧
    (mem_read MR_KBSR key_ready_state).2.memory (MR_KBSR + 1) ≠ 65 := by
  refine ⟨by decide, rfl, rfl, by decide, by decide, by decide, by decide⟩

/-- C14, amended: the keyboard data register is two addresses after the status
register, `MR_KBDR = MR_KBSR + 2 = 0xFE02`; after a successful poll that
delivers the character `c`, `c` is stored at, and readable from, address
status + 2, and the word at status + 1 is unchanged. -/
theorem KBDR_layout (s : State) (c : Nat) (rest : List Nat) (ks : List Bool) (hc : c < 256)
    (hk : s.keys = true :: ks) (hi : s.input = c :: rest) :
    MR_KBDR = MR_KBSR + 2 ∧
    (mem_read MR_KBSR s).2.memory (MR_KBSR + 2) = c ∧
    (mem_read (MR_KBSR + 2) (mem_read MR_KBSR s).2).1 = c ∧
    (mem_read MR_KBSR s).2.memory (MR_KBSR + 1) = s.memory (MR_KBSR + 1) := by
  have hmem : (mem_read MR_KBSR s).2.memory (MR_KBSR + 2) = c := by
    rw [mem_read_kbsr_ready s c rest ks hk hi, to_uint16_byte c hc]
    simp only []
    show (setMem MR_KBDR c _).memory MR_KBDR = c
    rw [setMem_same]
    exact Nat.mod_eq_of_lt (by omega)
  refine ⟨rfl, hmem, ?_, ?_⟩
  · rw [mem_read_plain _ _ (by decide)]
    exact hmem
  · rw [mem_read_kbsr_ready s c rest ks hk hi]
    simp only []
    have h1 : MR_KBSR + 1 ≠ MR_KBDR := by decide
    have h2 : MR_KBSR + 1 ≠ MR_KBSR := by decide
    rw [setMem_other _ _ _ _ h1]
    show (setMem MR_KBSR (1 <<< 15) { s with keys := ks }).memory (MR_KBSR + 1) = _
    rw [setMem_other _ _ _ _ h2]

theorem KBDR_layout_witness :
    (65 < 256 ∧ key_ready_state.keys = true :: [] ∧ key_ready_state.input = 65 :: []) ∧
    MR_KBDR = MR_KBSR + 2 ∧
    (mem_read MR_KBSR key_ready_state).2.memory (MR_KBSR + 2) = 65 ∧
    (mem_read (MR_KBSR + 2) (mem_read MR_KBSR key_ready_state).2).1 = 65 ∧
    (mem_read MR_KBSR key_ready_state).2.memory (MR_KBSR + 1)
      = key_ready_state.memory (MR_KBSR + 1) :=
  ⟨⟨by decide, rfl, rfl⟩, KBDR_layout key_ready_state 65 [] [] (by decide) rfl rfl⟩

/-! ## LEA and the incremented PC -/

/-- An assignment to `regs[r]` followed by `update_flags(r)` touches `regs[r]`
and COND only. -/
theorem flag_write_frame (r v : Nat) (s : State) :
    (update_flags r (setReg r v s)).memory = s.memory ∧
    (update_flags r (setReg r v s)).run = s.run ∧
    (update_flags r (setReg r v s)).input = s.input ∧
    (update_flags r (setReg r v s)).keys = s.keys ∧
    (update_flags r (setReg r v s)).output = s.output ∧
    ∀ i, i ≠ r → i ≠ R_COND → (update_flags r (setReg r v s)).regs i = s.regs i := by
  obtain ⟨hm, _, h2, h3, h4, h5⟩ := update_flags_frame r (setReg r v s)
  refine ⟨hm, h2, h3, h4, h5, fun i hi hc => ?_⟩
  rw [update_flags_other _ _ _ hc, setReg_other _ _ _ _ hi]

/-- C15: in a Running state with program counter `p` whose word `mem[p]` is
`LEA dr, off9`, one full step returns without fault and leaves
`reg[dr] = (p + 1 + sign_extend(off9, 9)) mod 2^16`, `PC = (p + 1) mod 2^16` (0
when `p = 0xFFFF`), COND set from the new `reg[dr]`, and the memory, every other
general register, the run flag and the console unchanged. -/
theorem LEA_uses_incremented_pc (s : State) (hrun : s.run = true)
    (hop : (fetch s).1 >>> 12 = OP_LEA) :
    ∃ t, step s = .ok t ∧
      t.regs (((fetch s).1 >>> 9) &&& 0x7)
        = (s.regs R_PC + 1 + sign_extend ((fetch s).1 &&& 0x1FF) 9) % 65536 ∧
      t.regs R_PC = (s.regs R_PC + 1) % 65536 ∧
      (s.regs R_PC = 0xFFFF → t.regs R_PC = 0) ∧
      CondOf (t.regs R_COND) (t.regs (((fetch s).1 >>> 9) &&& 0x7)) ∧
      t.memory = s.memory ∧
      (∀ i, i ≤ 7 → i ≠ ((fetch s).1 >>> 9) &&& 0x7 → t.regs i = s.regs i) ∧
      t.run = true ∧ t.input = s.input ∧ t.keys = s.keys ∧ t.output = s.output := by
  have hs : step s = .ok (LEA (fetch s).1 (fetch s).2) := dispatch_LEA _ _ hop
  have hf : (fetch s).2 = setReg R_PC (s.regs R_PC + 1) s := rfl
  have hfpc : (fetch s).2.regs R_PC = (s.regs R_PC + 1) % 65536 := setReg_same _ _ _
  have hlea : LEA (fetch s).1 (fetch s).2
      = update_flags (((fetch s).1 >>> 9) &&& 0x7) (setReg (((fetch s).1 >>> 9) &&& 0x7)
          ((fetch s).2.regs R_PC + sign_extend ((fetch s).1 &&& 0x1FF) 9) (fetch s).2) := rfl
  obtain ⟨hdr, hcond⟩ := update_flags_setReg (((fetch s).1 >>> 9) &&& 0x7)
    ((fetch s).2.regs R_PC + sign_extend ((fetch s).1 &&& 0x1FF) 9) (fetch s).2 (field3_le _)
  obtain ⟨fm, fr, fi, fk, fo, fregs⟩ := flag_write_frame (((fetch s).1 >>> 9) &&& 0x7)
    ((fetch s).2.regs R_PC + sign_extend ((fetch s).1 &&& 0x1FF) 9) (fetch s).2
  have hle : ((fetch s).1 >>> 9) &&& 0x7 ≤ 7 := field3_le _
  have hpc : (LEA (fetch s).1 (fetch s).2).regs R_PC = (s.regs R_PC + 1) % 65536 := by
    rw [hlea, fregs R_PC (by simp only [R_PC]; omega) (by decide), hfpc]
  have hval : (LEA (fetch s).1 (fetch s).2).regs (((fetch s).1 >>> 9) &&& 0x7)
      = (s.regs R_PC + 1 + sign_extend ((fetch s).1 &&& 0x1FF) 9) % 65536 := by
    rw [hlea, hdr, hfpc]
    omega
  refine ⟨_, hs, hval, hpc, ?_, ?_, ?_, ?_, ?_, ?_, ?_, ?_⟩
  · intro h; rw [hpc, h]
  · rw [hlea, hdr]; exact hcond
  · rw [hlea, fm]; rfl
  · intro i hi hne
    rw [hlea, fregs i hne (by simp only [R_COND]; omega), hf]
    exact setReg_other _ _ _ _ (by simp only [R_PC]; omega)
  · rw [hlea, fr]; exact hrun
  · rw [hlea, fi]; rfl
  · rw [hlea, fk]; rfl
  · rw [hlea, fo]; rfl

theorem LEA_uses_incremented_pc_witness :
    (lea_wrap_state.run = true ∧ (fetch lea_wrap_state).1 >>> 12 = OP_LEA) ∧
    ∃ t, step lea_wrap_state = .ok t ∧
      t.regs (((fetch lea_wrap_state).1 >>> 9) &&& 0x7)
        = (lea_wrap_state.regs R_PC + 1
            + sign_extend ((fetch lea_wrap_state).1 &&& 0x1FF) 9) % 65536 ∧
      t.regs R_PC = (lea_wrap_state.regs R_PC + 1) % 65536 ∧
      (lea_wrap_state.regs R_PC = 0xFFFF → t.regs R_PC = 0) ∧
      CondOf (t.regs R_COND) (t.regs (((fetch lea_wrap_state).1 >>> 9) &&& 0x7)) ∧
      t.memory = lea_wrap_state.memory ∧
      (∀ i, i ≤ 7 → i ≠ ((fetch lea_wrap_state).1 >>> 9) &&& 0x7 →
        t.regs i = lea_wrap_state.regs i) ∧
      t.run = true ∧ t.input = lea_wrap_state.input ∧ t.keys = lea_wrap_state.keys ∧
      t.output = lea_wrap_state.output :=
  ⟨⟨by decide, by decide⟩, LEA_uses_incremented_pc lea_wrap_state (by decide) (by decide)⟩

/-! ## End-to-end scenario 2 -/

/-- C16, as stated, fails: with the scenario image loaded into a zeroed machine
with an empty console, LEA leaves R0 = 0x3002, which is the address of the
TRAP HALT word, so STR stores R1 = 0 over it; the third word fetched is 0 (a BR
never taken), and after three instructions the machine is still Running, with
PC = 0x3003. -/
theorem scenario2_not_halted_after_three :
    scenario2_bytes = image_bytes 0x3000 [0xE001, 0x7200, 0xF025] ∧
    ∃ m t1 t2 t3, read_image_file scenario2_bytes (new_vm [] []) = some m ∧
      m.memory 0x3002 = 0xF025 ∧
      step (execute_init m) = .ok t1 ∧ t1.regs R_R0 = 0x3002 ∧
      step t1 = .ok t2 ∧ t2.memory 0x3002 = 0 ∧ (fetch t2).1 = 0 ∧
      step t2 = .ok t3 ∧ t3.run = true ∧ t3.regs R_PC = 0x3003 ∧
      execute 3 m = .ok t3 :=
  ⟨by decide, _, _, _, _, rfl, by decide, rfl, by decide, rfl, by decide, by decide,
    rfl, by decide, by decide, rfl⟩

theorem BR_zero (s : State) : BR 0 s = s := by
  have h : ¬ (((0 >>> 9) &&& 0x7) &&& s.regs R_COND ≠ 0) := by
    have : ((0 >>> 9) &&& 0x7) = 0 := by decide
    rw [this, Nat.zero_and]
    exact fun h => h rfl
  unfold BR
  simp only []
  rw [if_neg h]

theorem scenario2_step_LEA (t : State) (h : Scenario2Inv t) (hp : t.regs R_PC = 0x3000) :
    ∃ u, step t = .ok u ∧ Scenario2Inv u ∧ u.regs R_PC = 0x3001 ∧ u.regs R_R0 = 0x3002 := by
  obtain ⟨hrun, hm0, hm1, hmz, hr1, _, _, _⟩ := h
  have hstep : step t = .ok (LEA 0xE001 (setReg R_PC 0x3001 t)) := by
    rw [step_eq, hp, hm0]
    exact dispatch_LEA _ _ (by decide)
  have hfpc : (setReg R_PC 0x3001 t).regs R_PC = 0x3001 := by
    rw [setReg_same]
  have e1 : (0xE001 >>> 9) &&& 0x7 = R_R0 := by decide
  have e2 : sign_extend (0xE001 &&& 0x1FF) 9 = 1 := by decide
  have hlea : LEA 0xE001 (setReg R_PC 0x3001 t)
      = update_flags R_R0 (setReg R_R0 (0x3001 + 1) (setReg R_PC 0x3001 t)) := by
    have h0 : LEA 0xE001 (setReg R_PC 0x3001 t)
        = update_flags ((0xE001 >>> 9) &&& 0x7) (setReg ((0xE001 >>> 9) &&& 0x7)
            ((setReg R_PC 0x3001 t).regs R_PC + sign_extend (0xE001 &&& 0x1FF) 9)
            (setReg R_PC 0x3001 t)) := rfl
    rw [h0, e1, e2, hfpc]
  obtain ⟨fm, fr, _, _, _, fregs⟩ :=
    flag_write_frame R_R0 (0x3001 + 1) (setReg R_PC 0x3001 t)
  obtain ⟨hdr, _⟩ := update_flags_setReg R_R0 (0x3001 + 1) (setReg R_PC 0x3001 t) (by decide)
  have hpc : (LEA 0xE001 (setReg R_PC 0x3001 t)).regs R_PC = 0x3001 := by
    rw [hlea, fregs R_PC (by decide) (by decide)]; exact hfpc
  have hr0 : (LEA 0xE001 (setReg R_PC 0x3001 t)).regs R_R0 = 0x3002 := by
    rw [hlea, hdr]
  have hmem : (LEA 0xE001 (setReg R_PC 0x3001 t)).memory = t.memory := by
    rw [hlea, fm]; rfl
  refine ⟨_, hstep, ⟨?_, ?_, ?_, ?_, ?_, ?_, ?_, ?_⟩, hpc, hr0⟩
  · rw [hlea, fr]; exact hrun
  · rw [hmem]; exact hm0
  · rw [hmem]; exact hm1
  · rw [hmem]; exact hmz
  · rw [hlea, fregs R_R1 (by decide) (by decide)]; exact hr1
  · rw [hpc]; decide
  · intro _; exact hr0
  · intro _ h1; exact absurd hpc h1

theorem scenario2_step_STR (t : State) (h : Scenario2Inv t) (hp : t.regs R_PC = 0x3001) :
    ∃ u, step t = .ok u ∧ Scenario2Inv u ∧ u.regs R_PC = 0x3002 ∧
      u.memory 0x3002 = 0 ∧ u.regs R_R0 = 0x3002 ∧ u.regs R_R1 = 0 := by
  obtain ⟨hrun, hm0, hm1, hmz, hr1, _, hr0, _⟩ := h
  have hstep : step t = .ok (STR 0x7200 (setReg R_PC 0x3002 t)) := by
    rw [step_eq, hp, hm1]
    exact dispatch_STR _ _ (by decide)
  have hstr : STR 0x7200 (setReg R_PC 0x3002 t) = setMem 0x3002 0 (setReg R_PC 0x3002 t) := by
    have e : STR 0x7200 (setReg R_PC 0x3002 t)
        = mem_write ((setReg R_PC 0x3002 t).regs ((0x7200 >>> 6) &&& 0x7)
              + sign_extend (0x7200 &&& 0x3F) 6)
            ((setReg R_PC 0x3002 t).regs ((0x7200 >>> 9) &&& 0x7))
            (setReg R_PC 0x3002 t) := rfl
    have e1 : (0x7200 >>> 6) &&& 0x7 = 0 := by decide
    have e2 : sign_extend (0x7200 &&& 0x3F) 6 = 0 := by decide
    have e3 : (0x7200 >>> 9) &&& 0x7 = 1 := by decide
    have e4 : (setReg R_PC 0x3002 t).regs 0 = 0x3002 := hr0 hp
    have e5 : (setReg R_PC 0x3002 t).regs 1 = 0 := hr1
    rw [e, e1, e2, e3, e4, e5]
    rfl
  rw [hstr] at hstep
  refine ⟨_, hstep, ⟨hrun, ?_, ?_, ?_, hr1, ?_, ?_, ?_⟩, rfl, ?_, hr0 hp, hr1⟩
  · rw [setMem_other _ _ _ _ (by decide)]; exact hm0
  · rw [setMem_other _ _ _ _ (by decide)]; exact hm1
  · intro a h0 h1 h2
    rw [setMem_other _ _ _ _ h2]; exact hmz a h0 h1 h2
  · show (setReg R_PC 0x3002 t).regs R_PC < 65536
    rw [setReg_same]; decide
  · intro hc
    have : (setReg R_PC 0x3002 t).regs R_PC = 0x3002 := rfl
    have hc2 : (setReg R_PC 0x3002 t).regs R_PC = 0x3001 := hc
    rw [this] at hc2
    exact absurd hc2 (by decide)
  · intro _ _
    exact setMem_same _ _ _
  · exact setMem_same _ _ _

theorem scenario2_step_BR (t : State) (h : Scenario2Inv t) (hp0 : t.regs R_PC ≠ 0x3000)
    (hp1 : t.regs R_PC ≠ 0x3001) :
    ∃ u, step t = .ok u ∧ Scenario2Inv u ∧ (fetch t).1 = 0 ∧
      u.regs R_PC = (t.regs R_PC + 1) % 65536 := by
  obtain ⟨hrun, hm0, hm1, hmz, hr1, hlt, _, hm2⟩ := h
  have hword : t.memory (t.regs R_PC) = 0 := by
    by_cases h2 : t.regs R_PC = 0x3002
    · rw [h2]; exact hm2 hp0 hp1
    · exact hmz _ hp0 hp1 h2
  have hstep : step t = .ok (setReg R_PC (t.regs R_PC + 1) t) := by
    rw [step_eq, hword, dispatch_BR _ _ (by decide), BR_zero]
  have hpc : (setReg R_PC (t.regs R_PC + 1) t).regs R_PC = (t.regs R_PC + 1) % 65536 :=
    setReg_same _ _ _
  refine ⟨_, hstep, ⟨hrun, hm0, hm1, hmz, hr1, ?_, ?_, ?_⟩, hword, hpc⟩
  · rw [hpc]; exact Nat.mod_lt _ (by norm_num)
  · intro hc
    rw [hpc] at hc
    exact absurd (by omega : t.regs R_PC = 0x3000) hp0
  · intro _ _
    exact hm2 hp0 hp1

theorem scenario2_step (t : State) (h : Scenario2Inv t) :
    ∃ u, step t = .ok u ∧ Scenario2Inv u := by
  by_cases hp0 : t.regs R_PC = 0x3000
  · obtain ⟨u, hu, hi, _⟩ := scenario2_step_LEA t h hp0
    exact ⟨u, hu, hi⟩
  · by_cases hp1 : t.regs R_PC = 0x3001
    · obtain ⟨u, hu, hi, _⟩ := scenario2_step_STR t h hp1
      exact ⟨u, hu, hi⟩
    · obtain ⟨u, hu, hi, _⟩ := scenario2_step_BR t h hp0 hp1
      exact ⟨u, hu, hi⟩

theorem scenario2_loop (n : Nat) :
    ∀ t, Scenario2Inv t → ∃ u, loop n t = .ok u ∧ Scenario2Inv u := by
  induction n with
  | zero => intro t h; exact ⟨t, rfl, h⟩
  | succ n ih =>
    intro t h
    obtain ⟨u, hu, hi⟩ := scenario2_step t h
    obtain ⟨w, hw, hwi⟩ := ih u hi
    exact ⟨w, by rw [loop_succ_running n t u h.1 hu]; exact hw, hwi⟩

/-- C16, amended: for any console, loading the scenario image into a zeroed
machine puts the TRAP HALT word at 0x3002; `execute` runs LEA (leaving
R0 = 0x3002, the incremented PC plus 1), then STR (leaving
`mem[R0] = R1 = 0`, which overwrites the TRAP HALT word), so the third word
fetched is 0, a BR that is not taken: after three instructions the machine is
still Running with PC = 0x3003, and it is Running after any number of loop
iterations. -/
theorem scenario2_keeps_running (input : List Nat) (keys : List Bool) :
    ∃ m t1 t2 t3, read_image_file scenario2_bytes (new_vm input keys) = some m ∧
      m.memory 0x3002 = 0xF025 ∧
      step (execute_init m) = .ok t1 ∧ t1.regs R_R0 = 0x3002 ∧
      step t1 = .ok t2 ∧ t2.memory (t2.regs R_R0) = t2.regs R_R1 ∧ t2.memory 0x3002 = 0 ∧
      (fetch t2).1 = 0 ∧ step t2 = .ok t3 ∧ t3.run = true ∧ t3.regs R_PC = 0x3003 ∧
      execute 3 m = .ok t3 ∧
      (∀ n, ∃ t, execute n m = .ok t ∧ t.run = true) := by
  obtain ⟨m, hload, ⟨hregs, hrun, _, _, _⟩, hmem⟩ :=
    read_image_file_image 0x3000 [0xE001, 0x7200, 0xF025] (new_vm input keys)
      (by decide) (by decide)
  have hmin : min [0xE001, 0x7200, 0xF025].length (65535 - 0x3000) = 3 := by decide
  have hm0 : m.memory 0x3000 = 0xE001 := by rw [hmem]; rfl
  have hm1 : m.memory 0x3001 = 0x7200 := by rw [hmem]; rfl
  have hm2 : m.memory 0x3002 = 0xF025 := by rw [hmem]; rfl
  have hmz : ∀ a, a ≠ 0x3000 → a ≠ 0x3001 → a ≠ 0x3002 → m.memory a = 0 := by
    intro a h0 h1 h2
    rw [hmem, hmin, if_neg (by omega)]
    rfl
  have hr1 : m.regs R_R1 = 0 := by rw [hregs]; rfl
  have hmrun : m.run = true := by rw [hrun]; rfl
  have hpc0 : (execute_init m).regs R_PC = 0x3000 := rfl
  have hinv0 : Scenario2Inv (execute_init m) := by
    refine ⟨hmrun, hm0, hm1, hmz, hr1, ?_, ?_, ?_⟩
    · rw [hpc0]; decide
    · intro hc; rw [hpc0] at hc; exact absurd hc (by decide)
    · intro hc; exact absurd hpc0 hc
  obtain ⟨t1, hs1, hinv1, hpc1, hr01⟩ := scenario2_step_LEA _ hinv0 hpc0
  obtain ⟨t2, hs2, hinv2, hpc2, hmem2, hr02, hr12⟩ := scenario2_step_STR t1 hinv1 hpc1
  obtain ⟨t3, hs3, hinv3, hw3, hpc3⟩ := scenario2_step_BR t2 hinv2
    (by rw [hpc2]; decide) (by rw [hpc2]; decide)
  refine ⟨m, t1, t2, t3, hload, hm2, hs1, hr01, hs2, ?_, hmem2, hw3, hs3, hinv3.1, ?_, ?_, ?_⟩
  · rw [hr02, hmem2, hr12]
  · rw [hpc3, hpc2]
  · show loop 3 (execute_init m) = .ok t3
    rw [loop_succ_running 2 _ _ hinv0.1 hs1, loop_succ_running 1 _ _ hinv1.1 hs2,
      loop_succ_running 0 _ _ hinv2.1 hs3]
    rfl
  · intro n
    obtain ⟨t, ht, hi⟩ := scenario2_loop n _ hinv0
    exact ⟨t, ht, hi.1⟩

/-! ## JSR and JSRR -/

/-- C17: `JSRR R7` (word 0x41C0) with the incremented PC at 0x3001 and
R7 = 0x4000.  The handler stores the return address in R7 first and then reads
`regs[baseR]` with `baseR = 7`, so PC becomes the return address 0x3001 and not
0x4000, the value R7 held before the instruction. -/
theorem JSRR_R7_loses_target :
    0x41C0 >>> 12 = OP_JSR ∧ (0x41C0 >>> 11) &&& 1 = 0 ∧ (0x41C0 >>> 6) &&& 0x7 = 7 ∧
    jsrr_r7_state.regs R_PC = 0x3001 ∧ jsrr_r7_state.regs R_R7 = 0x4000 ∧
    dispatch 0x41C0 jsrr_r7_state = .ok (JSR 0x41C0 jsrr_r7_state) ∧
    (JSR 0x41C0 jsrr_r7_state).regs R_R7 = 0x3001 ∧
    (JSR 0x41C0 jsrr_r7_state).regs R_PC = 0x3001 ∧
    (JSR 0x41C0 jsrr_r7_state).regs R_PC ≠ jsrr_r7_state.regs R_R7 := by
  refine ⟨by decide, by decide, by decide, by decide, by decide,
    dispatch_JSR _ _ (by decide), by decide, by decide, by decide⟩

/-- What JSR/JSRR does in general: R7 receives the incremented PC; with the
long flag set PC advances by the sign-extended 11-bit offset; with it clear PC
becomes the old `regs[baseR]` for `baseR` in 0..6 and the return address for
`baseR = 7`; COND, R0-R6 and the memory are unchanged. -/
theorem JSR_general (instr : Nat) (s : State) (hop : instr >>> 12 = OP_JSR) :
    ∃ t, dispatch instr s = .ok t ∧
      t.regs R_R7 = s.regs R_PC % 65536 ∧
      ((instr >>> 11) &&& 1 ≠ 0 →
        t.regs R_PC = (s.regs R_PC + sign_extend (instr &&& 0x7ff) 11) % 65536) ∧
      ((instr >>> 11) &&& 1 = 0 → (instr >>> 6) &&& 0x7 ≠ 7 →
        t.regs R_PC = s.regs ((instr >>> 6) &&& 0x7) % 65536) ∧
      ((instr >>> 11) &&& 1 = 0 → (instr >>> 6) &&& 0x7 = 7 →
        t.regs R_PC = s.regs R_PC % 65536) ∧
      (∀ i, i ≠ R_R7 → i ≠ R_PC → t.regs i = s.regs i) ∧
      t.memory = s.memory ∧ t.run = s.run := by
  refine ⟨JSR instr s, dispatch_JSR instr s hop, ?_⟩
  by_cases hl : (instr >>> 11) &&& 1 ≠ 0
  · have hj : JSR instr s = setReg R_PC ((setReg R_R7 (s.regs R_PC) s).regs R_PC
        + sign_extend (instr &&& 0x7ff) 11) (setReg R_R7 (s.regs R_PC) s) := by
      unfold JSR; simp only []; rw [if_pos hl]
    have hpc : (setReg R_R7 (s.regs R_PC) s).regs R_PC = s.regs R_PC :=
      setReg_other _ _ _ _ (by decide)
    rw [hj, hpc]
    refine ⟨?_, fun _ => setReg_same _ _ _, fun h => absurd h hl, fun h => absurd h hl,
      ?_, rfl, rfl⟩
    · rw [setReg_other _ _ _ _ (by decide), setReg_same]
    · intro i h7 hp
      rw [setReg_other _ _ _ _ hp, setReg_other _ _ _ _ h7]
  · have hj : JSR instr s = setReg R_PC ((setReg R_R7 (s.regs R_PC) s).regs
        ((instr >>> 6) &&& 0x7)) (setReg R_R7 (s.regs R_PC) s) := by
      unfold JSR; simp only []; rw [if_neg hl]
    rw [hj]
    refine ⟨?_, fun h => absurd h hl, ?_, ?_, ?_, rfl, rfl⟩
    · rw [setReg_other _ _ _ _ (by decide), setReg_same]
    · intro _ h7
      rw [setReg_same, setReg_other _ _ _ _ h7]
    · intro _ h7
      rw [setReg_same, h7, setReg_same, Nat.mod_mod]
    · intro i h7 hp
      rw [setReg_other _ _ _ _ hp, setReg_other _ _ _ _ h7]

/-! ## Out-of-range accesses -/

/-- C18: `TRAP PUTS` and `TRAP PUTSP` with R0 = 0xFFFF and `mem[0xFFFF] = 0x41`.
The pointer `c` starts at `memory + 0xFFFF`, finds a nonzero word, is
incremented to `memory + 65536` and is dereferenced again: an access at index
65536, outside `memory`. -/
theorem PUTS_reads_past_memory :
    puts_overrun_state.run = true ∧
    (fetch puts_overrun_state).1 = 0xF022 ∧
    puts_overrun_state.regs R_R0 = 0xFFFF ∧ puts_overrun_state.memory 0xFFFF = 0x41 ∧
    step puts_overrun_state = .error Fault.out_of_bounds ∧
    (fetch putsp_overrun_state).1 = 0xF024 ∧
    step putsp_overrun_state = .error Fault.out_of_bounds := by
  refine ⟨by decide, by decide, by decide, by decide, rfl, by decide, rfl⟩

theorem puts_loop_ok (s : State) (left : Nat) :
    ∀ (c : Nat) (out : List Nat), (∃ a, c ≤ a ∧ a < c + left ∧ s.memory a = 0) →
      ∃ o, puts_loop s left c out = .ok o := by
  induction left with
  | zero =>
    intro c out h
    obtain ⟨a, h1, h2, _⟩ := h
    omega
  | succ n ih =>
    intro c out h
    obtain ⟨a, h1, h2, h3⟩ := h
    unfold puts_loop
    by_cases hz : s.memory c = 0
    · rw [if_pos hz]; exact ⟨out, rfl⟩
    · rw [if_neg hz]
      have hne : a ≠ c := fun e => hz (e ▸ h3)
      exact ih (c + 1) _ ⟨a, by omega, by omega, h3⟩

theorem putsp_loop_ok (s : State) (left : Nat) :
    ∀ (c : Nat) (out : List Nat), (∃ a, c ≤ a ∧ a < c + left ∧ s.memory a = 0) →
      ∃ o, putsp_loop s left c out = .ok o := by
  induction left with
  | zero =>
    intro c out h
    obtain ⟨a, h1, h2, _⟩ := h
    omega
  | succ n ih =>
    intro c out h
    obtain ⟨a, h1, h2, h3⟩ := h
    unfold putsp_loop
    simp only []
    by_cases hz : s.memory c = 0
    · rw [if_pos hz]; exact ⟨out, rfl⟩
    · rw [if_neg hz]
      have hne : a ≠ c := fun e => hz (e ▸ h3)
      split
      · exact ih (c + 1) _ ⟨a, by omega, by omega, h3⟩
      · exact ih (c + 1) _ ⟨a, by omega, by omega, h3⟩

theorem TRAP_PUTS_ok (instr : Nat) (s : State) (o : List Nat)
    (hv : instr &&& 0xFF = TRAP_PUTS)
    (ho : puts_loop s (MEMORY_MAX - s.regs R_R0) (s.regs R_R0) [] = .ok o) :
    TRAP instr s = .ok { s with output := s.output ++ o } := by
  unfold TRAP
  simp only []
  rw [if_neg (by rw [hv]; decide), if_neg (by rw [hv]; decide), if_pos hv, ho]

theorem TRAP_PUTSP_ok (instr : Nat) (s : State) (o : List Nat)
    (hv : instr &&& 0xFF = TRAP_PUTSP)
    (ho : putsp_loop s (MEMORY_MAX - s.regs R_R0) (s.regs R_R0) [] = .ok o) :
    TRAP instr s = .ok { s with output := s.output ++ o } := by
  unfold TRAP
  simp only []
  rw [if_neg (by rw [hv]; decide), if_neg (by rw [hv]; decide), if_neg (by rw [hv]; decide),
    if_neg (by rw [hv]; decide), if_pos hv, ho]

theorem dispatch_overrun_is_TRAP (instr : Nat) (s : State)
    (h : dispatch instr s = .error Fault.out_of_bounds) : instr >>> 12 = OP_TRAP := by
  rcases Nat.lt_or_ge (instr >>> 12) 16 with hlt | hge
  · generalize hop : instr >>> 12 = op at hlt
    interval_cases op
    · rw [dispatch_BR _ _ hop] at h; cases h
    · rw [dispatch_ADD _ _ hop] at h; cases h
    · rw [dispatch_LD _ _ hop] at h; cases h
    · rw [dispatch_ST _ _ hop] at h; cases h
    · rw [dispatch_JSR _ _ hop] at h; cases h
    · rw [dispatch_AND _ _ hop] at h; cases h
    · rw [dispatch_LDR _ _ hop] at h; cases h
    · rw [dispatch_STR _ _ hop] at h; cases h
    · rw [dispatch_RTI _ _ hop] at h; cases h
    · rw [dispatch_NOT _ _ hop] at h; cases h
    · rw [dispatch_LDI _ _ hop] at h; cases h
    · rw [dispatch_STI _ _ hop] at h; cases h
    · rw [dispatch_JMP _ _ hop] at h; cases h
    · rw [dispatch_RES _ _ hop] at h; cases h
    · rw [dispatch_LEA _ _ hop] at h; cases h
    · rfl
  · rw [dispatch_none _ _ hge] at h; cases h

/-- Where the overrun can happen: a step leaves `memory` only in TRAP PUTS or
TRAP PUTSP, and only when no zero word lies between address R0 and the end of
`memory`; every other instruction and trap vector stays in range. -/
theorem overrun_only_without_terminator (s : State)
    (h : step s = .error Fault.out_of_bounds) :
    (fetch s).1 >>> 12 = OP_TRAP ∧
    ((fetch s).1 &&& 0xFF = TRAP_PUTS ∨ (fetch s).1 &&& 0xFF = TRAP_PUTSP) ∧
    ∀ a, s.regs R_R0 ≤ a → a < 65536 → s.memory a ≠ 0 := by
  have hs : step s = dispatch (fetch s).1 (fetch s).2 := rfl
  rw [hs] at h
  have hop := dispatch_overrun_is_TRAP _ _ h
  rw [dispatch_TRAP _ _ hop] at h
  have hv : (fetch s).1 &&& 0xFF = TRAP_PUTS ∨ (fetch s).1 &&& 0xFF = TRAP_PUTSP := by
    by_contra hn
    obtain ⟨t, ht⟩ := TRAP_ok (fetch s).1 (fetch s).2 (fun e => hn (Or.inl e))
      (fun e => hn (Or.inr e))
    rw [ht] at h
    cases h
  refine ⟨hop, hv, ?_⟩
  intro a ha1 ha2 hz
  have hr0 : (fetch s).2.regs R_R0 = s.regs R_R0 := setReg_other _ _ _ _ (by decide)
  have hzero : ∃ b, (fetch s).2.regs R_R0 ≤ b ∧
      b < (fetch s).2.regs R_R0 + (MEMORY_MAX - (fetch s).2.regs R_R0) ∧
      (fetch s).2.memory b = 0 := by
    refine ⟨a, by rw [hr0]; exact ha1, ?_, hz⟩
    rw [hr0]
    show a < s.regs R_R0 + (65536 - s.regs R_R0)
    omega
  rcases hv with hv | hv
  · obtain ⟨o, ho⟩ := puts_loop_ok _ _ _ [] hzero
    rw [TRAP_PUTS_ok _ _ o hv ho] at h
    cases h
  · obtain ⟨o, ho⟩ := putsp_loop_ok _ _ _ [] hzero
    rw [TRAP_PUTSP_ok _ _ o hv ho] at h
    cases h

/-! ## Undefined trap vectors -/

theorem TRAP_undefined (instr : Nat) (s : State) (hv : instr &&& 0xFF ∉ defined_traps) :
    TRAP instr s = .ok s := by
  simp only [defined_traps, List.mem_cons, List.mem_singleton, List.not_mem_nil, or_false,
    not_or] at hv
  obtain ⟨h0, h1, h2, h3, h4, h5⟩ := hv
  unfold TRAP
  simp only []
  rw [if_neg h0, if_neg h1, if_neg h2, if_neg h3, if_neg h4, if_neg h5]

/-- C19: for every state whose fetched word is a TRAP with a vector
`instr[7:0]` outside 0x20..0x25, the step returns without fault and changes
nothing but PC, which becomes the incremented PC: R0-R7, COND, the memory and
the run flag are unchanged, no input is consumed and no output is produced. -/
theorem undefined_trap_noop (s : State) (hop : (fetch s).1 >>> 12 = OP_TRAP)
    (hv : (fetch s).1 &&& 0xFF ∉ defined_traps) :
    ∃ t, step s = .ok t ∧
      t.regs R_PC = (s.regs R_PC + 1) % 65536 ∧
      (∀ i, i ≠ R_PC → t.regs i = s.regs i) ∧
      t.memory = s.memory ∧ t.run = s.run ∧
      t.input = s.input ∧ t.keys = s.keys ∧ t.output = s.output := by
  have hs : step s = .ok (setReg R_PC (s.regs R_PC + 1) s) := by
    show dispatch (fetch s).1 (fetch s).2 = _
    rw [dispatch_TRAP _ _ hop, TRAP_undefined _ _ hv]
    rfl
  exact ⟨_, hs, setReg_same _ _ _, fun i hi => setReg_other _ _ _ _ hi, rfl, rfl, rfl, rfl, rfl⟩

theorem undefined_trap_noop_witness :
    ((fetch trap_undefined_state).1 >>> 12 = OP_TRAP ∧
      (fetch trap_undefined_state).1 &&& 0xFF ∉ defined_traps) ∧
    ∃ t, step trap_undefined_state = .ok t ∧
      t.regs R_PC = (trap_undefined_state.regs R_PC + 1) % 65536 ∧
      (∀ i, i ≠ R_PC → t.regs i = trap_undefined_state.regs i) ∧
      t.memory = trap_undefined_state.memory ∧ t.run = trap_undefined_state.run ∧
      t.input = trap_undefined_state.input ∧ t.keys = trap_undefined_state.keys ∧
      t.output = trap_undefined_state.output :=
  ⟨⟨by decide, by decide⟩, undefined_trap_noop trap_undefined_state (by decide) (by decide)⟩

/-! ## Store/load round trip -/

theorem STR_eq (instr : Nat) (s : State) :
    STR instr s = setMem ((s.regs ((instr >>> 6) &&& 0x7)
        + sign_extend (instr &&& 0x3F) 6) % 65536) (s.regs ((instr >>> 9) &&& 0x7)) s := rfl

theorem LDR_eq (instr : Nat) (s : State) :
    LDR instr s = update_flags ((instr >>> 9) &&& 0x7) (setReg ((instr >>> 9) &&& 0x7)
      (mem_read (s.regs ((instr >>> 6) &&& 0x7) + sign_extend (instr &&& 0x3F) 6) s).1
      (mem_read (s.regs ((instr >>> 6) &&& 0x7) + sign_extend (instr &&& 0x3F) 6) s).2) := rfl

/-- C20: in a state of 16-bit words, let `STR sr, baseR, off` and
`LDR dr, baseR, off` share base register and 6-bit offset, with effective
address `a = (reg[baseR] + sign_extend(off, 6)) mod 2^16` other than the
keyboard status address 0xFE00.  STR runs without fault; LDR, run next on the
state STR left (whatever the PC has become in between), runs without fault
and leaves `reg[dr]` equal to the value `reg[sr]` held when STR executed,
`mem[a]` equal to that value, every other memory word as before the STR, and
COND set from that value. -/
theorem STR_LDR_round_trip (i1 i2 : Nat) (s : State) (hwf : WF s)
    (h1 : i1 >>> 12 = OP_STR) (h2 : i2 >>> 12 = OP_LDR)
    (hb : (i2 >>> 6) &&& 0x7 = (i1 >>> 6) &&& 0x7) (ho : i2 &&& 0x3F = i1 &&& 0x3F)
    (ha : (s.regs ((i1 >>> 6) &&& 0x7) + sign_extend (i1 &&& 0x3F) 6) % 65536 ≠ 0xFE00) :
    ∃ t1, dispatch i1 s = .ok t1 ∧
      ∀ u, u.memory = t1.memory → (∀ i, i ≤ 7 → u.regs i = t1.regs i) →
        ∃ t2, dispatch i2 u = .ok t2 ∧
          t2.regs ((i2 >>> 9) &&& 0x7) = s.regs ((i1 >>> 9) &&& 0x7) ∧
          t2.memory ((s.regs ((i1 >>> 6) &&& 0x7) + sign_extend (i1 &&& 0x3F) 6) % 65536)
            = s.regs ((i1 >>> 9) &&& 0x7) ∧
          (∀ b, b ≠ (s.regs ((i1 >>> 6) &&& 0x7) + sign_extend (i1 &&& 0x3F) 6) % 65536 →
            t2.memory b = s.memory b) ∧
          CondOf (t2.regs R_COND) (s.regs ((i1 >>> 9) &&& 0x7)) := by
  refine ⟨STR i1 s, dispatch_STR i1 s h1, ?_⟩
  intro u humem huregs
  have hv : s.regs ((i1 >>> 9) &&& 0x7) % 65536 = s.regs ((i1 >>> 9) &&& 0x7) :=
    Nat.mod_eq_of_lt (hwf.2 _)
  have hbase : u.regs ((i2 >>> 6) &&& 0x7) = s.regs ((i1 >>> 6) &&& 0x7) := by
    rw [huregs _ (field3_le _), hb]
    rfl
  have hread : mem_read (u.regs ((i2 >>> 6) &&& 0x7) + sign_extend (i2 &&& 0x3F) 6) u
      = (s.regs ((i1 >>> 9) &&& 0x7), u) := by
    rw [hbase, ho, mem_read_plain _ _ ha, humem, STR_eq, setMem_same, hv]
  have hldr : LDR i2 u = update_flags ((i2 >>> 9) &&& 0x7)
      (setReg ((i2 >>> 9) &&& 0x7) (s.regs ((i1 >>> 9) &&& 0x7)) u) := by
    rw [LDR_eq, hread]
  obtain ⟨hdr, hcond⟩ := update_flags_setReg ((i2 >>> 9) &&& 0x7)
    (s.regs ((i1 >>> 9) &&& 0x7)) u (field3_le _)
  obtain ⟨fm, _⟩ := flag_write_frame ((i2 >>> 9) &&& 0x7) (s.regs ((i1 >>> 9) &&& 0x7)) u
  rw [hv] at hdr hcond
  refine ⟨LDR i2 u, dispatch_LDR i2 u h2, ?_, ?_, ?_, ?_⟩
  · rw [hldr]; exact hdr
  · rw [hldr, fm, humem, STR_eq, setMem_same, hv]
  · intro b hb2
    rw [hldr, fm, humem, STR_eq, setMem_other _ _ _ _ hb2]
  · rw [hldr]; exact hcond

theorem round_trip_state_WF : WF round_trip_state :=
  setReg_WF _ _ _ (setReg_WF _ _ _ (setReg_WF _ _ _ (setReg_WF _ _ _ (new_vm_WF [] []))))

theorem STR_LDR_round_trip_witness :
    (WF round_trip_state ∧ 0x7283 >>> 12 = OP_STR ∧ 0x6683 >>> 12 = OP_LDR ∧
      (0x6683 >>> 6) &&& 0x7 = (0x7283 >>> 6) &&& 0x7 ∧ 0x6683 &&& 0x3F = 0x7283 &&& 0x3F ∧
      (round_trip_state.regs ((0x7283 >>> 6) &&& 0x7)
        + sign_extend (0x7283 &&& 0x3F) 6) % 65536 ≠ 0xFE00) ∧
    ∃ t1, dispatch 0x7283 round_trip_state = .ok t1 ∧
      ∀ u, u.memory = t1.memory → (∀ i, i ≤ 7 → u.regs i = t1.regs i) →
        ∃ t2, dispatch 0x6683 u = .ok t2 ∧
          t2.regs ((0x6683 >>> 9) &&& 0x7) = round_trip_state.regs ((0x7283 >>> 9) &&& 0x7) ∧
          t2.memory ((round_trip_state.regs ((0x7283 >>> 6) &&& 0x7)
              + sign_extend (0x7283 &&& 0x3F) 6) % 65536)
            = round_trip_state.regs ((0x7283 >>> 9) &&& 0x7) ∧
          (∀ b, b ≠ (round_trip_state.regs ((0x7283 >>> 6) &&& 0x7)
              + sign_extend (0x7283 &&& 0x3F) 6) % 65536 →
            t2.memory b = round_trip_state.memory b) ∧
          CondOf (t2.regs R_COND) (round_trip_state.regs ((0x7283 >>> 9) &&& 0x7)) :=
  ⟨⟨round_trip_state_WF, by decide, by decide, by decide, by decide, by decide⟩,
    STR_LDR_round_trip 0x7283 0x6683 round_trip_state round_trip_state_WF (by decide)
      (by decide) (by decide) (by decide) (by decide)⟩

end VM
